import Mathlib

/-!
Shallow embedding of the Claw-Kanban server core (server/index.ts): the
card run/review state machine, the process registry, the output
normalizer `prettyStreamJson`, and the operator-facing endpoints.
Text is modelled as Lean `String` (a wrapper around `List Char`);
JavaScript `Number` values where NaN matters are modelled by `JsNum`.
Member access on JSON `null` is modelled as `undefined` (the code never
reaches that corner because every parsed line starts with a brace).
-/

namespace ClawKanban

/-! ## Character / string primitives (JS semantics) -/

/-- The whitespace class used by JS `String.prototype.trim` and `\s`,
restricted to the ASCII range (the only range the server emits). -/
def isJsSpace (c : Char) : Bool :=
  c = ' ' || c = '\t' || c = '\n' || c = '\r' || c = '\x0b' || c = '\x0c'

/-- Remove trailing JS whitespace. -/
def trimRight : List Char → List Char
  | [] => []
  | c :: cs =>
    match trimRight cs with
    | [] => if isJsSpace c then [] else [c]
    | r => c :: r

/-- Model of `String.prototype.trim`: right trim, then left trim. -/
def trimChars (l : List Char) : List Char :=
  (trimRight l).dropWhile isJsSpace

def jsTrim (s : String) : String := ⟨trimChars s.data⟩

/-- Prepend a character to the first piece of a split result. -/
def consHead (c : Char) : List (List Char) → List (List Char)
  | [] => [[c]]
  | l :: ls => (c :: l) :: ls

/-- Model of `str.split(/\r?\n/)`: split on `\n`, consuming a `\r`
directly before it; a lone `\r` is not a separator. -/
def splitLinesCh : List Char → List (List Char)
  | [] => [[]]
  | '\r' :: '\n' :: rest => [] :: splitLinesCh rest
  | '\n' :: rest => [] :: splitLinesCh rest
  | c :: rest => consHead c (splitLinesCh rest)

def splitLines (s : String) : List String :=
  (splitLinesCh s.data).map (fun l => ⟨l⟩)

def listStartsWith : List Char → List Char → Bool
  | _, [] => true
  | [], _ :: _ => false
  | a :: as, b :: bs => a = b && listStartsWith as bs

/-- Substring containment, the model of `String.prototype.includes`. -/
def hasSub : List Char → List Char → Bool
  | hay, pat =>
    if listStartsWith hay pat then true
    else
      match hay with
      | [] => false
      | _ :: t => hasSub t pat

def strContains (s pat : String) : Bool := hasSub s.data pat.data

def strToLower (s : String) : String := ⟨s.data.map Char.toLower⟩

def strTake (s : String) (n : Nat) : String := ⟨s.data.take n⟩

/-! ## JSON values and a model of `JSON.parse` -/

inductive Json where
  | jnull
  | jbool (b : Bool)
  | jnum (lexeme : String)
  | jstr (s : String)
  | jarr (elems : List Json)
  | jobj (fields : List (String × Json))

def jsonWs (c : Char) : Bool := c = ' ' || c = '\t' || c = '\n' || c = '\r'

def parseHex (c : Char) : Option Nat :=
  if '0' ≤ c ∧ c ≤ '9' then some (c.toNat - '0'.toNat)
  else if 'a' ≤ c ∧ c ≤ 'f' then some (c.toNat - 'a'.toNat + 10)
  else if 'A' ≤ c ∧ c ≤ 'F' then some (c.toNat - 'A'.toNat + 10)
  else none

def escMap (e : Char) : Option Char :=
  if e = '"' then some '"'
  else if e = '\\' then some '\\'
  else if e = '/' then some '/'
  else if e = 'b' then some '\x08'
  else if e = 'f' then some '\x0c'
  else if e = 'n' then some '\n'
  else if e = 'r' then some '\r'
  else if e = 't' then some '\t'
  else none

/-- Parse a JSON string body after the opening quote; raw control
characters are rejected as `JSON.parse` does. -/
def parseStringBody : List Char → Option (List Char × List Char)
  | [] => none
  | '"' :: rest => some ([], rest)
  | '\\' :: 'u' :: h1 :: h2 :: h3 :: h4 :: rest =>
    match parseHex h1, parseHex h2, parseHex h3, parseHex h4 with
    | some a, some b, some c, some d =>
      (parseStringBody rest).map
        (fun p => (Char.ofNat ((((a * 16 + b) * 16 + c) * 16) + d) :: p.1, p.2))
    | _, _, _, _ => none
  | '\\' :: e :: rest =>
    match escMap e with
    | some ec => (parseStringBody rest).map (fun p => (ec :: p.1, p.2))
    | none => none
  | c :: rest =>
    if c.toNat < 32 then none
    else (parseStringBody rest).map (fun p => (c :: p.1, p.2))

def takeDigits (l : List Char) : List Char × List Char :=
  (l.takeWhile Char.isDigit, l.dropWhile Char.isDigit)

/-- Parse a JSON number token, returning its lexeme. -/
def parseNumber (l : List Char) : Option (List Char × List Char) :=
  let sl : List Char × List Char := match l with
    | '-' :: t => (['-'], t)
    | _ => ([], l)
  let ds := takeDigits sl.2
  if ds.1 = [] then none
  else if ds.1.length > 1 && ds.1.headD ' ' = '0' then none
  else
    let fracRes : Option (List Char × List Char) := match ds.2 with
      | '.' :: t =>
        let fs := takeDigits t
        if fs.1 = [] then none else some ('.' :: fs.1, fs.2)
      | _ => some ([], ds.2)
    match fracRes with
    | none => none
    | some (frac, l3) =>
      let expRes : Option (List Char × List Char) := match l3 with
        | e :: t =>
          if e = 'e' ∨ e = 'E' then
            let st : List Char × List Char := match t with
              | '+' :: u => (['+'], u)
              | '-' :: u => (['-'], u)
              | _ => ([], t)
            let xs := takeDigits st.2
            if xs.1 = [] then none else some (e :: (st.1 ++ xs.1), xs.2)
          else some ([], l3)
        | [] => some ([], l3)
      match expRes with
      | none => none
      | some (ex, l5) => some (sl.1 ++ ds.1 ++ frac ++ ex, l5)

/-- Insert an object field; a duplicate key keeps its first position and
last value, as `JSON.parse` does. -/
def insertField (fields : List (String × Json)) (k : String) (v : Json) :
    List (String × Json) :=
  if fields.any (fun p => p.1 = k) then
    fields.map (fun p => if p.1 = k then (k, v) else p)
  else fields ++ [(k, v)]

mutual

def parseVal : Nat → List Char → Option (Json × List Char)
  | 0, _ => none
  | fuel + 1, l =>
    match l.dropWhile jsonWs with
    | [] => none
    | c :: rest =>
      if c = '{' then
        match rest.dropWhile jsonWs with
        | '}' :: r2 => some (Json.jobj [], r2)
        | _ => parseFields fuel [] rest
      else if c = '[' then
        match rest.dropWhile jsonWs with
        | ']' :: r2 => some (Json.jarr [], r2)
        | _ => parseElems fuel [] rest
      else if c = '"' then
        (parseStringBody rest).map (fun p => (Json.jstr ⟨p.1⟩, p.2))
      else if c = 't' then
        match rest with
        | 'r' :: 'u' :: 'e' :: r2 => some (Json.jbool true, r2)
        | _ => none
      else if c = 'f' then
        match rest with
        | 'a' :: 'l' :: 's' :: 'e' :: r2 => some (Json.jbool false, r2)
        | _ => none
      else if c = 'n' then
        match rest with
        | 'u' :: 'l' :: 'l' :: r2 => some (Json.jnull, r2)
        | _ => none
      else
        (parseNumber (c :: rest)).map (fun p => (Json.jnum ⟨p.1⟩, p.2))

def parseFields : Nat → List (String × Json) → List Char →
    Option (Json × List Char)
  | 0, _, _ => none
  | fuel + 1, acc, l =>
    match l.dropWhile jsonWs with
    | '"' :: rest =>
      match parseStringBody rest with
      | none => none
      | some (k, r2) =>
        match r2.dropWhile jsonWs with
        | ':' :: r3 =>
          match parseVal fuel r3 with
          | none => none
          | some (v, r4) =>
            let acc2 := insertField acc ⟨k⟩ v
            match r4.dropWhile jsonWs with
            | ',' :: r5 => parseFields fuel acc2 r5
            | '}' :: r5 => some (Json.jobj acc2, r5)
            | _ => none
        | _ => none
    | _ => none

def parseElems : Nat → List Json → List Char → Option (Json × List Char)
  | 0, _, _ => none
  | fuel + 1, acc, l =>
    match parseVal fuel l with
    | none => none
    | some (v, r1) =>
      let acc2 := acc ++ [v]
      match r1.dropWhile jsonWs with
      | ',' :: r2 => parseElems fuel acc2 r2
      | ']' :: r2 => some (Json.jarr acc2, r2)
      | _ => none

end

/-- Model of `JSON.parse` applied to a whole line: the value must consume
the entire input up to trailing whitespace. -/
def jsonParse (l : List Char) : Option Json :=
  match parseVal (l.length + 1) l with
  | some (jv, rest) => if rest.dropWhile jsonWs = [] then some jv else none
  | none => none

/-! ## JS value coercions -/

/-- Mantissa-only test for a numeric lexeme denoting zero. -/
def zeroLexeme (lex : String) : Bool :=
  (lex.data.takeWhile (fun c => c ≠ 'e' ∧ c ≠ 'E')).all
    (fun c => c = '0' ∨ c = '-' ∨ c = '+' ∨ c = '.')

/-- JS truthiness of a field access result (`none` is `undefined`). -/
def truthy : Option Json → Bool
  | none => false
  | some Json.jnull => false
  | some (Json.jbool b) => b
  | some (Json.jnum lex) => !(zeroLexeme lex)
  | some (Json.jstr s) => !(s = "")
  | some (Json.jarr _) => true
  | some (Json.jobj _) => true

/-- Field access `v.key`, with access on anything but an object giving
`undefined`. -/
def getF (v : Option Json) (key : String) : Option Json :=
  match v with
  | some (Json.jobj fields) => (fields.find? (fun p => p.1 = key)).map (·.2)
  | _ => none

/-- Strict-equality comparison `v === "lit"`. -/
def isStr (v : Option Json) (lit : String) : Bool :=
  match v with
  | some (Json.jstr t) => t = lit
  | _ => false

mutual

/-- Template-literal / `String()` coercion of a JS value. -/
def jsValToString : Json → String
  | Json.jnull => "null"
  | Json.jbool true => "true"
  | Json.jbool false => "false"
  | Json.jnum lex => lex
  | Json.jstr s => s
  | Json.jarr xs => jsArrJoin xs
  | Json.jobj _ => "[object Object]"

def jsArrJoin : List Json → String
  | [] => ""
  | [x] => jsItemStr x
  | x :: y :: xs => jsItemStr x ++ "," ++ jsArrJoin (y :: xs)

/-- Array elements that are `null` render as empty in `toString`. -/
def jsItemStr : Json → String
  | Json.jnull => ""
  | v => jsValToString v

end

def jsToString (v : Option Json) : String :=
  match v with
  | none => "undefined"
  | some w => jsValToString w

/-- Coercion used by `Array.prototype.join`: `undefined` and `null`
become empty strings. -/
def joinVal (v : Option Json) : String :=
  match v with
  | none => ""
  | some Json.jnull => ""
  | some w => jsValToString w

def hexDigitChar (n : Nat) : Char :=
  if n < 10 then Char.ofNat ('0'.toNat + n) else Char.ofNat ('a'.toNat + n - 10)

def escJsonChar (c : Char) : List Char :=
  if c = '"' then ['\\', '"']
  else if c = '\\' then ['\\', '\\']
  else if c = '\n' then ['\\', 'n']
  else if c = '\r' then ['\\', 'r']
  else if c = '\t' then ['\\', 't']
  else if c = '\x08' then ['\\', 'b']
  else if c = '\x0c' then ['\\', 'f']
  else if c.toNat < 32 then
    ['\\', 'u', '0', '0', hexDigitChar (c.toNat / 16), hexDigitChar (c.toNat % 16)]
  else [c]

mutual

/-- Model of `JSON.stringify` on parsed values. -/
def stringifyVal : Json → List Char
  | Json.jnull => "null".data
  | Json.jbool true => "true".data
  | Json.jbool false => "false".data
  | Json.jnum lex => lex.data
  | Json.jstr s => '"' :: (s.data.map escJsonChar).flatten ++ ['"']
  | Json.jarr xs => '[' :: stringifyArr xs ++ [']']
  | Json.jobj fs => '{' :: stringifyFields fs ++ ['}']

def stringifyArr : List Json → List Char
  | [] => []
  | [x] => stringifyVal x
  | x :: y :: xs => stringifyVal x ++ ',' :: stringifyArr (y :: xs)

def stringifyFields : List (String × Json) → List Char
  | [] => []
  | [(k, v)] => '"' :: (k.data.map escJsonChar).flatten ++ '"' :: ':' :: stringifyVal v
  | (k, v) :: f :: fs =>
    '"' :: (k.data.map escJsonChar).flatten ++ '"' :: ':' :: stringifyVal v
      ++ ',' :: stringifyFields (f :: fs)

end

def stringifyOpt (v : Option Json) : String :=
  match v with
  | some w => ⟨stringifyVal w⟩
  | none => "undefined"

/-- JS `a || b` on field-access results, deciding by truthiness. -/
def jsOr (a b : Option Json) : Option Json := if truthy a then a else b

/-! ## Output normalizer: `prettyStreamJson` -/

def joinCommaSpace : List String → String
  | [] => ""
  | [x] => x
  | x :: y :: xs => x ++ ", " ++ joinCommaSpace (y :: xs)

/-- The per-record dispatch of `prettyStreamJson`: one parsed JSON line
is turned into chunk pushes and meta pushes, branch for branch as in the
source. -/
def parseAct (j : Json) : List String × List String :=
  let jv := some j
  if isStr (getF jv "type") "system" && isStr (getF jv "subtype") "init" then
    let initLine := "[init] cwd=" ++ jsToString (getF jv "cwd") ++ " model="
      ++ jsToString (getF jv "model")
    let mcp : List String := match getF jv "mcp_servers" with
      | some (Json.jarr servers) =>
        let failed := servers.filter (fun sv =>
          truthy (getF (some sv) "status") && !(isStr (getF (some sv) "status") "ok"))
        if failed.length ≠ 0 then
          ["[mcp] " ++ joinCommaSpace (failed.map (fun sv =>
            jsToString (getF (some sv) "name") ++ ":" ++ jsToString (getF (some sv) "status")))]
        else []
      | _ => []
    ([], initLine :: mcp)
  else if isStr (getF jv "type") "init" && truthy (getF jv "session_id") then
    ([], ["[init] session=" ++ jsToString (getF jv "session_id") ++ " model="
      ++ jsToString (getF jv "model")])
  else if isStr (getF jv "type") "stream_event" then
    let ev := getF jv "event"
    if isStr (getF ev "type") "content_block_delta"
        && isStr (getF (getF ev "delta") "type") "text_delta" then
      ([joinVal (getF (getF ev "delta") "text")], [])
    else if isStr (getF ev "type") "content_block_start"
        && isStr (getF (getF ev "content_block") "type") "text"
        && truthy (getF (getF ev "content_block") "text") then
      ([joinVal (getF (getF ev "content_block") "text")], [])
    else ([], [])
  else if isStr (getF jv "type") "assistant" && truthy (getF (getF jv "message") "content") then
    match getF (getF jv "message") "content" with
    | some (Json.jarr blocks) =>
      ((blocks.filter (fun b =>
          isStr (getF (some b) "type") "text" && truthy (getF (some b) "text"))).map
        (fun b => joinVal (getF (some b) "text")), [])
    | _ => ([], [])
  else if isStr (getF jv "type") "result" && truthy (getF jv "result") then
    ([joinVal (getF jv "result")], [])
  else if isStr (getF jv "type") "message" && isStr (getF jv "role") "assistant"
      && truthy (getF jv "content") then
    ([joinVal (getF jv "content")], [])
  else if isStr (getF jv "type") "tool_use" && truthy (getF jv "tool_name") then
    let params := jsOr (getF (getF jv "parameters") "file_path")
      (jsOr (getF (getF jv "parameters") "command") (some (Json.jstr "")))
    (["\n[tool: " ++ jsToString (getF jv "tool_name") ++ "] " ++ jsToString params ++ "\n"], [])
  else if isStr (getF jv "type") "tool_result" && truthy (getF jv "status") then
    if !(isStr (getF jv "status") "success") then
      (["[result: " ++ jsToString (getF jv "status") ++ "]\n"], [])
    else ([], [])
  else if isStr (getF jv "type") "thread.started" && truthy (getF jv "thread_id") then
    ([], ["[thread] " ++ jsToString (getF jv "thread_id")])
  else if isStr (getF jv "type") "item.completed" && truthy (getF jv "item") then
    let item := getF jv "item"
    if isStr (getF item "type") "agent_message" && truthy (getF item "text") then
      ([joinVal (getF item "text")], [])
    else if isStr (getF item "type") "reasoning" && truthy (getF item "text") then
      (["\n[reasoning] " ++ jsToString (getF item "text") ++ "\n"], [])
    else if isStr (getF item "type") "tool_call" && truthy (getF item "name") then
      let args := if truthy (getF item "arguments") then
          strTake (stringifyOpt (getF item "arguments")) 100 else ""
      (["\n[tool: " ++ jsToString (getF item "name") ++ "] " ++ args ++ "\n"], [])
    else if isStr (getF item "type") "tool_output" && truthy (getF item "output") then
      let out := jsToString (getF item "output")
      if strContains out "error" || out.length < 200 then
        (["[output] " ++ strTake out 200 ++ "\n"], [])
      else ([], [])
    else ([], [])
  else if isStr (getF jv "type") "turn.completed" && truthy (getF jv "usage") then
    let u := getF jv "usage"
    ([], ["[usage] in=" ++ jsToString (getF u "input_tokens") ++ " out="
      ++ jsToString (getF u "output_tokens") ++ " cached="
      ++ (if truthy (getF u "cached_input_tokens") then
            jsToString (getF u "cached_input_tokens") else "0")])
  else ([], [])

/-- The loop body of `prettyStreamJson` for one raw line: trim, skip
blanks, skip lines not starting with a brace, parse, dispatch. -/
def lineAct (line : List Char) : List String × List String :=
  match trimChars line with
  | [] => ([], [])
  | '{' :: t =>
    match jsonParse ('{' :: t) with
    | none => ([], [])
    | some j => parseAct j
  | _ => ([], [])

/-- All chunk pushes and meta pushes accumulated over the lines of the
raw text, in order. -/
def collectParts (raw : List Char) : List String × List String :=
  ((splitLinesCh raw).map lineAct).foldr
    (fun p acc => (p.1 ++ acc.1, p.2 ++ acc.2)) ([], [])

def allSpace (l : List Char) : Bool := l.all isJsSpace

/-- Drop trailing all-whitespace pieces and right-trim the last
remaining piece: the effect of a whole-text right trim on the split
lines. -/
def rstripLines : List (List Char) → List (List Char)
  | [] => []
  | x :: xs =>
    match rstripLines xs with
    | [] => if allSpace x then [] else [trimRight x]
    | ys => x :: ys

/-- An empty split result denotes the single empty line. -/
def wrapNil : List (List Char) → List (List Char)
  | [] => [[]]
  | L => L

/-- The paragraph placeholder `\u0000`. -/
def paraChar : Char := Char.ofNat 0

/-- Replace each maximal run of two or more newlines by one placeholder
(the `\n{2,}` global regex replacement). -/
def collapseNLRuns : List Char → List Char
  | [] => []
  | '\n' :: '\n' :: rest =>
    match collapseNLRuns ('\n' :: rest) with
    | '\n' :: out => paraChar :: out
    | out => out
  | c :: rest => c :: collapseNLRuns rest

/-- Replace each maximal run of JS whitespace by a single space
(the `\s+` global regex replacement). -/
def collapseWsRuns : List Char → List Char
  | [] => []
  | c :: rest =>
    if isJsSpace c then
      match collapseWsRuns rest with
      | ' ' :: out => ' ' :: out
      | out => ' ' :: out
    else c :: collapseWsRuns rest

def expandPara (l : List Char) : List Char :=
  (l.map (fun c => if c = paraChar then ['\n', '\n'] else [c])).flatten

/-- Stitch recognized chunks and meta lines into the rendered output. -/
def renderStitched (chunks meta : List String) : List Char :=
  let stitched := (String.join chunks).data
  let withPara := collapseNLRuns stitched
  let singleLine := withPara.map (fun c => if c = '\n' then ' ' else c)
  let normalized := trimChars (expandPara (collapseWsRuns singleLine))
  let head := if meta.isEmpty then ([] : List Char)
    else (String.intercalate "\n" meta).data ++ ['\n', '\n']
  head ++ normalized

/-- The output normalizer (`prettyStreamJson` in the source): renders
recognized streaming-JSON records, or returns the trimmed raw text when
no record was recognized. -/
def prettyStreamJson (raw : String) : String :=
  let parts := collectParts raw.data
  if parts.1.isEmpty && parts.2.isEmpty then jsTrim raw
  else ⟨renderStitched parts.1 parts.2⟩

/-! ## Project-path extraction -/

/-- The inner scan of `extractProjectPath`: up to five lines following a
header are examined; blank lines are skipped, a new section breaks, and
the first remaining line is returned trimmed (the source returns `v`
whether or not it looks like an absolute path). -/
def extractInner : Nat → List String → Option String
  | _, [] => none
  | 0, _ => none
  | fuel + 1, v :: rest =>
    let t := jsTrim v
    if t = "" then extractInner fuel rest
    else if t.startsWith "## " then none
    else some t

def extractScan : List String → Option String
  | [] => none
  | l :: rest =>
    if jsTrim l = "## Project Path" ∨ jsTrim l = "## 프로젝트 경로" then
      match extractInner 5 rest with
      | some v => some v
      | none => extractScan rest
    else extractScan rest

/-- Model of `extractProjectPath(description)`. -/
def extractProjectPath (description : String) : Option String :=
  extractScan (splitLines description)

/-- JS string falsiness of an optional string column. -/
def jsStrFalsy : Option String → Bool
  | none => true
  | some s => s = ""

/-! ## Data model: cards, runs, logs, registry, server state -/

structure Card where
  id : String
  title : String
  description : String
  status : String
  assignee : Option String
  project_path : Option String
  priority : Nat
  created_at : Nat
  updated_at : Nat
deriving DecidableEq

structure Run where
  id : Nat
  card_id : String
  created_at : Nat
  agent : String
  pid : Option Int
  status : String
  log_path : String
  cwd : String
deriving DecidableEq

structure CardLog where
  card_id : String
  created_at : Nat
  kind : String
  message : String
deriving DecidableEq

structure SystemLog where
  created_at : Nat
  kind : String
  message : String
deriving DecidableEq

/-- A pending `setTimeout(() => startReviewTest(..), 2000)` callback. -/
structure TimerEntry where
  delayMs : Nat
  card_id : String
  project_path : String
deriving DecidableEq

structure WakeReq where
  key : String
  text : String
  debounceMs : Nat
deriving DecidableEq

/-- A launch performed by the agent launcher: a CLI child process or a
fire-and-forget HTTP agent task. -/
inductive LaunchEvent where
  | spawned (cardId agent key cwd : String) (pid : Int)
  | httpLaunched (cardId agent cwd : String) (pid : Int)
deriving DecidableEq

/-- The whole observable server state: the SQLite tables, the in-memory
`activeProcesses` map (key to pid), log files on disk, pending timers,
queued wake notifications, and the histories of launches, process-tree
kills and HTTP aborts. -/
structure ServerState where
  cards : List Card
  card_runs : List Run
  card_logs : List CardLog
  system_logs : List SystemLog
  activeProcesses : List (String × Int)
  files : List (String × String)
  timers : List TimerEntry
  wakes : List WakeReq
  launches : List LaunchEvent
  kills : List Int
  aborts : List Int
  nextPid : Int
  httpAgentCounter : Int
  nextRunId : Nat
  now : Nat
  logsDir : String
  serverCwd : String
deriving DecidableEq

/-! ### Map-like helpers -/

def regGet (m : List (String × Int)) (k : String) : Option Int :=
  (m.find? (fun p => p.1 = k)).map (·.2)

def regSet (m : List (String × Int)) (k : String) (v : Int) : List (String × Int) :=
  (k, v) :: m.filter (fun p => ¬ p.1 = k)

def regDel (m : List (String × Int)) (k : String) : List (String × Int) :=
  m.filter (fun p => ¬ p.1 = k)

def fsRead (fs : List (String × String)) (p : String) : Option String :=
  (fs.find? (fun q => q.1 = p)).map (·.2)

def fsWrite (fs : List (String × String)) (p c : String) : List (String × String) :=
  (p, c) :: fs.filter (fun q => ¬ q.1 = p)

def fsDelete (fs : List (String × String)) (p : String) : List (String × String) :=
  fs.filter (fun q => ¬ q.1 = p)

def findCard (cards : List Card) (id : String) : Option Card :=
  cards.find? (fun c => c.id = id)

def updateCardList (cards : List Card) (id : String) (f : Card → Card) : List Card :=
  cards.map (fun c => if c.id = id then f c else c)

/-- SQL `SELECT .. ORDER BY created_at DESC LIMIT 1`: the run with the
greatest creation time (a later row wins a tie). -/
def laterRun (a b : Run) : Run := if a.created_at ≤ b.created_at then b else a

def latestRunAux : Run → List Run → Run
  | r, [] => r
  | r, x :: xs => latestRunAux (laterRun r x) xs

def latestRun (runs : List Run) (cardId : String) : Option Run :=
  match runs.filter (fun r => r.card_id = cardId) with
  | [] => none
  | r :: rs => some (latestRunAux r rs)

/-- SQL `UPDATE card_runs SET status = ? WHERE id = ?`. -/
def updateRunStatus (runs : List Run) (rid : Nat) (st : String) : List Run :=
  runs.map (fun r => if r.id = rid then { r with status := st } else r)

/-! ### State-changing primitives -/

def appendCardLog (s : ServerState) (cardId kind message : String) : ServerState :=
  { s with card_logs := s.card_logs ++ [⟨cardId, s.now, kind, message⟩], now := s.now + 1 }

def appendSystemLog (s : ServerState) (kind message : String) : ServerState :=
  { s with system_logs := s.system_logs ++ [⟨s.now, kind, message⟩], now := s.now + 1 }

/-- SQL `INSERT INTO card_runs ...` with a fresh row id and the current
timestamp. -/
def insertRun (s : ServerState) (cardId agent : String) (pid : Option Int)
    (status logPath cwd : String) : ServerState :=
  { s with
    card_runs := s.card_runs ++ [⟨s.nextRunId, cardId, s.now, agent, pid, status, logPath, cwd⟩]
    nextRunId := s.nextRunId + 1
    now := s.now + 1 }

/-- SQL `UPDATE cards SET updated_at = ?, status = ? WHERE id = ?`. -/
def updateCardStatus (s : ServerState) (cardId st : String) : ServerState :=
  { s with
    cards := updateCardList s.cards cardId
      (fun c => { c with status := st, updated_at := s.now })
    now := s.now + 1 }

def queueWake (s : ServerState) (key text : String) (debounceMs : Nat) : ServerState :=
  { s with wakes := s.wakes ++ [⟨key, text, debounceMs⟩] }

/-- Model of `killPidTree`: record the process-group termination. -/
def killPidTree (s : ServerState) (pid : Int) : ServerState :=
  { s with kills := s.kills ++ [pid] }

/-- Model of the mock `kill()` of an HTTP agent handle: the abort signal. -/
def abortHandle (s : ServerState) (pid : Int) : ServerState :=
  { s with aborts := s.aborts ++ [pid] }

def logPathFor (s : ServerState) (cardId : String) : String :=
  s.logsDir ++ "/" ++ cardId ++ ".log"

def reviewLogPathFor (s : ServerState) (cardId : String) : String :=
  s.logsDir ++ "/" ++ cardId ++ ".review.log"

def promptPathFor (s : ServerState) (cardId : String) : String :=
  s.logsDir ++ "/" ++ cardId ++ ".prompt.txt"

/-! ### Agent launcher -/

/-- Model of `spawnAgent`: persist the prompt, truncate the log, spawn
the child (a fresh positive pid), and register the handle under
`processKey` or the card id — replacing any existing entry. -/
def spawnAgent (s : ServerState) (cardId agent prompt projectPath logPath : String)
    (processKey : Option String) : Int × ServerState :=
  let s1 := { s with files := fsWrite s.files (promptPathFor s cardId) prompt }
  let s2 := { s1 with files := fsWrite s1.files logPath "" }
  let pid := s2.nextPid
  let key := processKey.getD cardId
  (pid,
    { s2 with
      nextPid := s2.nextPid + 1
      activeProcesses := regSet s2.activeProcesses key pid
      launches := s2.launches ++ [.spawned cardId agent key projectPath pid] })

/-- Model of `launchHttpAgent`: truncate the log, persist the prompt,
and register a mock handle with the negative fake pid. -/
def launchHttpAgent (s : ServerState) (cardId agent prompt projectPath logPath : String)
    (fakePid : Int) : ServerState :=
  let s1 := { s with files := fsWrite s.files logPath "" }
  let s2 := { s1 with files := fsWrite s1.files (promptPathFor s1 cardId) prompt }
  { s2 with
    activeProcesses := regSet s2.activeProcesses cardId fakePid
    launches := s2.launches ++ [.httpLaunched cardId agent projectPath fakePid] }

/-! ### Run / review completion handlers -/

/-- Model of `resolveProjectPath`: explicit field, then extraction from
the description, then the server's own working directory. -/
def resolveProjectPath (cwd : String) (card : Card) : String :=
  if !jsStrFalsy card.project_path then card.project_path.getD ""
  else
    match extractProjectPath card.description with
    | some p => if p = "" then cwd else p
    | none => cwd

/-- Model of `handleRunComplete(cardId, exitCode, projectPath)`: drop the
registry entry, log, mark the most recent run `stopped`, and on exit
code `0` move the card to `Review/Test` and schedule the review start
after the fixed 2000&thinsp;ms delay.  No check of the card's current
status is performed. -/
def handleRunComplete (s : ServerState) (cardId : String) (exitCode : Int)
    (projectPath : String) : ServerState :=
  let s1 := { s with activeProcesses := regDel s.activeProcesses cardId }
  let status := if exitCode = 0 then "completed" else "failed"
  let s2 := appendCardLog s1 cardId "system"
    ("RUN " ++ status ++ " (exit code: " ++ toString exitCode ++ ")")
  let s3 := appendSystemLog s2 "system"
    ("Run " ++ status ++ " " ++ cardId ++ " (exit: " ++ toString exitCode ++ ")")
  let s4 := match latestRun s3.card_runs cardId with
    | some run => { s3 with card_runs := updateRunStatus s3.card_runs run.id "stopped" }
    | none => s3
  if exitCode = 0 then
    let s5 := updateCardStatus s4 cardId "Review/Test"
    { s5 with timers := s5.timers ++ [⟨2000, cardId, projectPath⟩] }
  else s4

/-- Model of `handleReviewComplete(cardId, exitCode)`: drop the review
registry entry, log, and on exit code `0` run the review log through the
normalizer and either move the card to `Done` or queue the issues-found
wake.  The review run row is never updated. -/
def handleReviewComplete (s : ServerState) (cardId : String) (exitCode : Int) :
    ServerState :=
  let s1 := { s with
    activeProcesses := regDel s.activeProcesses (cardId ++ ":review") }
  let reviewStatus := if exitCode = 0 then "completed" else "failed"
  let s2 := appendCardLog s1 cardId "system"
    ("REVIEW " ++ reviewStatus ++ " (exit code: " ++ toString exitCode ++ ")")
  let s3 := appendSystemLog s2 "system"
    ("Review " ++ reviewStatus ++ " " ++ cardId ++ " (exit: " ++ toString exitCode ++ ")")
  let card := findCard s3.cards cardId
  if exitCode = 0 then
    let rawLog := (fsRead s3.files (reviewLogPathFor s3 cardId)).getD ""
    let reviewLog := prettyStreamJson rawLog
    let passed := strContains reviewLog "REVIEW_PASSED"
      || strContains (strToLower reviewLog) "looks good"
    if passed then
      let s4 := updateCardStatus s3 cardId "Done"
      queueWake s4 ("done:" ++ cardId)
        ("Kanban: Review/Test -> Done - " ++ (match card with
          | some c => c.title
          | none => cardId)) 5000
    else
      queueWake s3 ("review-issues:" ++ cardId)
        ("Kanban: Review found issues - " ++ (match card with
          | some c => c.title
          | none => cardId)) 5000
  else s3

/-- The fixed verification prompt built by `startReviewTest`. -/
def reviewPromptFor (card : Card) (implLogHint : String) : String :=
  "Task Verification for: " ++ card.title ++ "\n\nTask Description: "
    ++ (if card.description = "" then "(no description)" else card.description)
    ++ "\n" ++ implLogHint
    ++ "\n\nPlease verify the task was completed successfully:\n"
    ++ "1. Check if the requested work was done\n"
    ++ "2. If code changes were made, review for bugs and issues\n"
    ++ "3. Verify the result matches the task requirements\n\n"
    ++ "IMPORTANT: If the task appears completed successfully, output exactly: REVIEW_PASSED\n"
    ++ "If there are issues or the task is incomplete, explain clearly."

/-- Model of `startReviewTest(cardId, projectPath)`: only proceeds when
the card still exists in `Review/Test`; truncates the review log, spawns
the fixed `claude` reviewer under the `:review` key and records the
Review Run with agent kind `claude-review`. -/
def startReviewTest (s : ServerState) (cardId projectPath : String) : ServerState :=
  match findCard s.cards cardId with
  | none => s
  | some card =>
    if ¬ card.status = "Review/Test" then s
    else
      let reviewLogPath := reviewLogPathFor s cardId
      let s1 := { s with files := fsWrite s.files reviewLogPath "" }
      let implLogPath := logPathFor s1 cardId
      let implLogHint := if (fsRead s1.files implLogPath).isSome then
          "\n\nImplementation log available at: " ++ implLogPath else ""
      let reviewPrompt := reviewPromptFor card implLogHint
      let s2 := appendCardLog s1 cardId "system" "REVIEW started"
      let s3 := appendSystemLog s2 "system" ("Review start " ++ cardId)
      let ps := spawnAgent s3 cardId "claude" reviewPrompt projectPath reviewLogPath
        (some (cardId ++ ":review"))
      insertRun ps.2 cardId "claude-review" (some ps.1) "running" reviewLogPath projectPath

/-! ### Operator endpoints -/

def supportedAgents : List String :=
  ["claude", "codex", "gemini", "opencode", "copilot", "antigravity"]

/-- JS `card.assignee || "claude"`. -/
def assigneeOr (card : Card) : String :=
  match card.assignee with
  | none => "claude"
  | some a => if a = "" then "claude" else a

inductive RunResp where
  | notFound
  | unsupportedAgent (agent : String)
  | missingProjectPath
  | ok (pid : Option Int) (logPath cwd : String)
deriving DecidableEq

/-- Model of `POST /api/cards/:id/run`: existence and agent checks, the
missing-project-path rejection, then launch, run insert and the move to
`In Progress`.  There is no check against `activeProcesses`. -/
def runEndpoint (s : ServerState) (id : String) : RunResp × ServerState :=
  match findCard s.cards id with
  | none => (.notFound, s)
  | some card =>
    let agent := assigneeOr card
    if ¬ supportedAgents.contains agent then (.unsupportedAgent agent, s)
    else
      let projectPath := resolveProjectPath s.serverCwd card
      if jsStrFalsy card.project_path && (extractProjectPath card.description).isNone then
        (.missingProjectPath, s)
      else
        let logPath := logPathFor s id
        let prompt := card.title ++ "\n\n" ++ card.description
        let s1 := appendCardLog s id "system" ("RUN start requested (agent=" ++ agent ++ ")")
        let s2 := appendSystemLog s1 "system" ("Run start " ++ id ++ " agent=" ++ agent)
        if agent = "copilot" ∨ agent = "antigravity" then
          let fakePid := -(s2.httpAgentCounter + 1)
          let s3 := { s2 with httpAgentCounter := s2.httpAgentCounter + 1 }
          let s4 := insertRun s3 id agent (some fakePid) "running" logPath projectPath
          let s5 := updateCardStatus s4 id "In Progress"
          let s6 := launchHttpAgent s5 id agent prompt projectPath logPath fakePid
          (.ok (some fakePid) logPath projectPath, s6)
        else
          let ps := spawnAgent s2 id agent prompt projectPath logPath none
          let s3 := insertRun ps.2 id agent (some ps.1) "running" logPath projectPath
          let s4 := updateCardStatus s3 id "In Progress"
          (.ok (some ps.1) logPath projectPath, s4)

inductive StopResp where
  | notFound
  | okStopped (stopped : Bool) (pid : Option Int)
deriving DecidableEq

/-- Model of `POST /api/cards/:id/stop`: resolve a pid from the registry
(implementation key first, then review key) or the most recent run row;
abort or kill it, clear both registry keys, mark the most recent run
`stopped` and move the card to `Stopped`. -/
def stopEndpoint (s : ServerState) (id : String) : StopResp × ServerState :=
  match findCard s.cards id with
  | none => (.notFound, s)
  | some _ =>
    let activeChild := match regGet s.activeProcesses id with
      | some p => some p
      | none => regGet s.activeProcesses (id ++ ":review")
    let run := latestRun s.card_runs id
    let pid : Option Int := match activeChild with
      | some p => some p
      | none => run.bind (·.pid)
    match pid with
    | none =>
      let s1 := appendCardLog s id "system" "STOP requested but no pid found"
      (.okStopped false none, s1)
    | some p =>
      if p = 0 then
        let s1 := appendCardLog s id "system" "STOP requested but no pid found"
        (.okStopped false none, s1)
      else
        let s1 := if p < 0 then
            match activeChild with
            | some ap => abortHandle s ap
            | none => s
          else killPidTree s p
        let s2 := { s1 with
          activeProcesses := regDel (regDel s1.activeProcesses id) (id ++ ":review") }
        let s3 := appendCardLog s2 id "system" ("STOP sent to pid " ++ toString p)
        let s4 := appendSystemLog s3 "system" ("Stop " ++ id ++ " pid=" ++ toString p)
        let s5 := match run with
          | some r => { s4 with card_runs := updateRunStatus s4.card_runs r.id "stopped" }
          | none => s4
        let s6 := updateCardStatus s5 id "Stopped"
        (.okStopped true (some p), s6)

/-- One iteration of the registry-cleanup loop in
`deleteCardAndArtifacts`: kill or abort the handle under `key` when its
pid is truthy, then drop the key. -/
def deleteKillStep (t : ServerState) (key : String) : ServerState :=
  let t1 := match regGet t.activeProcesses key with
    | some p =>
      if p = 0 then t
      else if p < 0 then abortHandle t p
      else killPidTree t p
    | none => t
  { t1 with activeProcesses := regDel t1.activeProcesses key }

/-- Model of `deleteCardAndArtifacts(cardId)`: kill and deregister both
possible handles, kill and stop the latest recorded run, then delete all
run rows, card-log rows, the card row and the three log files. -/
def deleteCardAndArtifacts (s : ServerState) (cardId : String) : ServerState :=
  let s1 := deleteKillStep (deleteKillStep s cardId) (cardId ++ ":review")
  let s2 := match latestRun s1.card_runs cardId with
    | some run =>
      match run.pid with
      | some p =>
        if p > 0 then
          let t := killPidTree s1 p
          { t with card_runs := updateRunStatus t.card_runs run.id "stopped" }
        else s1
      | none => s1
    | none => s1
  let s3 := { s2 with card_runs := s2.card_runs.filter (fun r => ¬ r.card_id = cardId) }
  let s4 := { s3 with card_logs := s3.card_logs.filter (fun l => ¬ l.card_id = cardId) }
  let s5 := { s4 with cards := s4.cards.filter (fun c => ¬ c.id = cardId) }
  { s5 with files :=
      fsDelete (fsDelete (fsDelete s5.files (logPathFor s5 cardId))
        (reviewLogPathFor s5 cardId)) (promptPathFor s5 cardId) }

inductive DeleteResp where
  | notFound
  | ok
deriving DecidableEq

/-- Model of `DELETE /api/cards/:id`. -/
def deleteEndpoint (s : ServerState) (id : String) : DeleteResp × ServerState :=
  match findCard s.cards id with
  | none => (.notFound, s)
  | some _ =>
    let s1 := appendSystemLog s "system" ("Card deleted " ++ id)
    (.ok, deleteCardAndArtifacts s1 id)

/-! ### Terminal tail endpoint -/

/-- A JS number: NaN, an infinity, or a finite value kept as the exact
decimal `mant * 10 ^ exp` (no float rounding or overflow; the endpoint
only compares such values against small integer bounds and floors
them, where the exact decimal and the double agree). -/
inductive JsNum where
  | nan
  | posInf
  | negInf
  | dec (mant : Int) (exp : Int)
deriving DecidableEq

def digitsToNat (l : List Char) : Nat :=
  l.foldl (fun acc c => acc * 10 + (c.toNat - '0'.toNat)) 0

/-- Digit value in octal. -/
def octVal (c : Char) : Option Nat :=
  if '0' ≤ c ∧ c ≤ '7' then some (c.toNat - '0'.toNat) else none

/-- Digit value in binary. -/
def binVal (c : Char) : Option Nat :=
  if c = '0' then some 0 else if c = '1' then some 1 else none

/-- A nonempty digit sequence in the given radix; `none` on any invalid
digit. -/
def radixToNat (f : Char → Option Nat) (radix : Nat) (l : List Char) : Option Nat :=
  if l.isEmpty then none
  else l.foldlM (fun acc c => (f c).map (fun d => acc * radix + d)) 0

/-- An unsigned radix-prefixed integer literal body (`0x…`, `0o…`,
`0b…` after the prefix). -/
def radixNum (f : Char → Option Nat) (radix : Nat) (t : List Char) : JsNum :=
  match radixToNat f radix t with
  | some n => JsNum.dec (Int.ofNat n) 0
  | none => JsNum.nan

/-- The optionally signed decimal exponent of a numeric literal; the
whole input must be consumed. -/
def parseSignedDigits : List Char → Option Int
  | '+' :: t => if !t.isEmpty && t.all Char.isDigit then
      some (Int.ofNat (digitsToNat t)) else none
  | '-' :: t => if !t.isEmpty && t.all Char.isDigit then
      some (-(Int.ofNat (digitsToNat t))) else none
  | t => if !t.isEmpty && t.all Char.isDigit then
      some (Int.ofNat (digitsToNat t)) else none

/-- An unsigned decimal literal `digits [. digits] [e|E exponent]` with
at least one mantissa digit, as mantissa and decimal exponent. -/
def parseUnsignedDec (l : List Char) : Option (Int × Int) :=
  let ip := l.takeWhile Char.isDigit
  let rest1 := l.drop ip.length
  let fp := match rest1 with
    | '.' :: t => t.takeWhile Char.isDigit
    | _ => []
  let rest2 := match rest1 with
    | '.' :: t => t.drop (t.takeWhile Char.isDigit).length
    | _ => rest1
  if ip.isEmpty && fp.isEmpty then none
  else
    let mant : Int := Int.ofNat (digitsToNat (ip ++ fp))
    let e0 : Int := -(fp.length : Int)
    match rest2 with
    | [] => some (mant, e0)
    | 'e' :: t => (parseSignedDigits t).map (fun ex => (mant, e0 + ex))
    | 'E' :: t => (parseSignedDigits t).map (fun ex => (mant, e0 + ex))
    | _ => none

/-- A signed decimal literal or `Infinity`. -/
def decOrInf (sign : Int) (t : List Char) : JsNum :=
  if t = ['I', 'n', 'f', 'i', 'n', 'i', 't', 'y'] then
    if 0 ≤ sign then JsNum.posInf else JsNum.negInf
  else
    match parseUnsignedDec t with
    | some (m, e) => JsNum.dec (sign * m) e
    | none => JsNum.nan

/-- Model of JS `Number(str)` (the `StringNumericLiteral` conversion):
trim; the empty string is `0`; an unsigned hex, octal or binary integer
literal; otherwise an optionally signed decimal literal (with optional
fraction and exponent) or `Infinity`; anything else is NaN. -/
def jsToNumber (str : String) : JsNum :=
  match trimChars str.data with
  | [] => JsNum.dec 0 0
  | '0' :: 'x' :: t => radixNum parseHex 16 t
  | '0' :: 'X' :: t => radixNum parseHex 16 t
  | '0' :: 'o' :: t => radixNum octVal 8 t
  | '0' :: 'O' :: t => radixNum octVal 8 t
  | '0' :: 'b' :: t => radixNum binVal 2 t
  | '0' :: 'B' :: t => radixNum binVal 2 t
  | '+' :: t => decOrInf 1 t
  | '-' :: t => decOrInf (-1) t
  | t => decOrInf 1 t

/-- `m1 * 10 ^ e1 ≤ m2 * 10 ^ e2` on exact decimals. -/
def decLe (m1 e1 m2 e2 : Int) : Bool :=
  if e1 ≤ e2 then m1 ≤ m2 * (10 : Int) ^ (e2 - e1).toNat
  else m1 * (10 : Int) ^ (e1 - e2).toNat ≤ m2

/-- `Math.max(a, b)` with a NaN-propagating first argument and an
integer second argument. -/
def jsMax (a : JsNum) (b : Int) : JsNum :=
  match a with
  | .nan => .nan
  | .posInf => .posInf
  | .negInf => .dec b 0
  | .dec m e => if decLe m e b 0 then .dec b 0 else .dec m e

/-- `Math.min(a, b)` with a NaN-propagating first argument and an
integer second argument. -/
def jsMin (a : JsNum) (b : Int) : JsNum :=
  match a with
  | .nan => .nan
  | .posInf => .dec b 0
  | .negInf => .negInf
  | .dec m e => if decLe m e b 0 then .dec m e else .dec b 0

/-- The line-count computation
`Math.min(Math.max(Number(req.query.lines ?? 200), 20), 4000)`. -/
def terminalLineCount (linesQ : Option String) : JsNum :=
  jsMin (jsMax (match linesQ with
    | none => .dec 200 0
    | some str => jsToNumber str) 20) 4000

/-- `String(req.query.pretty ?? "1") === "1"`. -/
def terminalPretty (prettyQ : Option String) : Bool :=
  prettyQ.getD "1" = "1"

structure TermResp where
  ok : Bool
  exists_ : Bool
  path : String
  text : String
deriving DecidableEq

/-- Floor of the exact decimal `m * 10 ^ e`. -/
def decFloor (m e : Int) : Int :=
  if 0 ≤ e then m * (10 : Int) ^ e.toNat else Int.fdiv m ((10 : Int) ^ (-e).toNat)

/-- `n - m * 10 ^ e` as an exact decimal. -/
def decSubFrom (n m e : Int) : Int × Int :=
  if 0 ≤ e then (n - m * (10 : Int) ^ e.toNat, 0)
  else (n * (10 : Int) ^ (-e).toNat - m, e)

/-- The slice start `parts.slice(Math.max(0, parts.length - lines))`:
NaN propagates through the subtraction and `Math.max` and is coerced to
`0` by `slice`; an infinite count gives `-Infinity` (start `0`) or
`+Infinity` (start clamped to the length); a fractional nonnegative
start is truncated by `slice`, which equals its floor. -/
def terminalSliceStart (partsLen : Nat) (lines : JsNum) : Nat :=
  match lines with
  | .nan => 0
  | .posInf => 0
  | .negInf => partsLen
  | .dec m e =>
    let w := decSubFrom (partsLen : Int) m e
    if decLe w.1 w.2 0 0 then 0 else (decFloor w.1 w.2).toNat

/-- Model of `GET /api/cards/:id/terminal`. -/
def terminalEndpoint (s : ServerState) (id : String) (linesQ prettyQ : Option String) :
    TermResp :=
  let lines := terminalLineCount linesQ
  let pretty := terminalPretty prettyQ
  let filePath := logPathFor s id
  match fsRead s.files filePath with
  | none => ⟨true, false, filePath, ""⟩
  | some raw =>
    let parts := splitLines raw
    let tail := String.intercalate "\n" (parts.drop (terminalSliceStart parts.length lines))
    ⟨true, true, filePath, if pretty then prettyStreamJson tail else tail⟩

/-! ## Concrete fixtures used by witnesses and counterexamples -/

/-- A server state with empty tables, used as the base of the concrete
scenarios. -/
def initState : ServerState :=
  { cards := [], card_runs := [], card_logs := [], system_logs := [],
    activeProcesses := [], files := [], timers := [], wakes := [],
    launches := [], kills := [], aborts := [], nextPid := 101,
    httpAgentCounter := 0, nextRunId := 1, now := 1000,
    logsDir := "logs", serverCwd := "/srv" }

/-- The card of the spec scenario: explicit project path, CLI assignee. -/
def demoCard : Card :=
  { id := "c1", title := "fix bug", description := "demo", status := "Inbox",
    assignee := some "claude", project_path := some "/repo", priority := 0,
    created_at := 1, updated_at := 1 }

/-- A card without any resolvable project path. -/
def pathlessCard : Card :=
  { demoCard with id := "c2", project_path := none, description := "plain text" }

def pathlessState : ServerState := { initState with cards := [pathlessCard] }

/-- The running implementation run used in the failure scenario. -/
def demoRun : Run :=
  { id := 1, card_id := "c1", created_at := 1001, agent := "claude",
    pid := some 101, status := "running", log_path := "logs/c1.log",
    cwd := "/repo" }

def inProgressState : ServerState :=
  { initState with
    cards := [{ demoCard with status := "In Progress" }],
    card_runs := [demoRun],
    activeProcesses := [("c1", 101)] }

/-- The scenario state right after a successful `start` of the demo
card. -/
def startedState : ServerState :=
  (runEndpoint { initState with cards := [demoCard] } "c1").2

/-- The scenario state after `start` followed by `stop`: the card is in
`Stopped` with its run marked `stopped` and the registry cleared. -/
def stoppedState : ServerState := (stopEndpoint startedState "c1").2

/-- A plainly `Stopped` card state used to instantiate the late-callback
theorem. -/
def stoppedPlainState : ServerState :=
  { initState with
    cards := [{ demoCard with status := "Stopped" }],
    card_runs := [{ demoRun with status := "stopped" }] }

/-- A state in which the demo card already has a live registry handle
(pid 77). -/
def liveHandleState : ServerState :=
  { initState with
    cards := [{ demoCard with status := "In Progress" }],
    card_runs := [demoRun],
    activeProcesses := [("c1", 77)] }

/-- A state in which the card has both a live implementation handle and
a live review handle, plus run rows, log rows and all three files. -/
def fullyLoadedState : ServerState :=
  { initState with
    cards := [{ demoCard with status := "Review/Test" }],
    card_runs := [demoRun, ⟨2, "c1", 1010, "claude-review", some 102, "running",
      "logs/c1.review.log", "/repo"⟩],
    card_logs := [⟨"c1", 1001, "system", "RUN start requested (agent=claude)"⟩],
    activeProcesses := [("c1", 101), ("c1:review", 102)],
    files := [("logs/c1.log", "impl"), ("logs/c1.review.log", "rev"),
      ("logs/c1.prompt.txt", "prompt")] }

/-- The scenario state with a finished implementation run and a running
review run. -/
def reviewingState : ServerState :=
  { initState with
    cards := [{ demoCard with status := "Review/Test" }],
    card_runs := [{ demoRun with status := "stopped" },
      ⟨2, "c1", 1010, "claude-review", some 102, "running", "logs/c1.review.log", "/repo"⟩],
    activeProcesses := [("c1:review", 102)] }

/-- The scenario state whose review log consists of exactly the sentinel
line and nothing else. -/
def passedReviewState : ServerState :=
  { initState with
    cards := [{ demoCard with status := "Review/Test" }],
    files := [("logs/c1.review.log", "REVIEW_PASSED\n")] }

/-- A state holding a 210-line implementation log for the card. -/
def longLogState : ServerState :=
  { initState with files := [("logs/c1.log",
      String.intercalate "\n" (List.replicate 210 "x"))] }

/-! ## Helper lemmas about the store operations -/

theorem findCard_updateCardList_self (cards : List Card) (id : String) (f : Card → Card)
    (hf : ∀ c, (f c).id = c.id) :
    findCard (updateCardList cards id f) id = (findCard cards id).map f := by
  induction cards with
  | nil => rfl
  | cons c cs ih =>
    show List.find? _ ((if c.id = id then f c else c) :: updateCardList cs id f)
      = ((c :: cs).find? _).map f
    by_cases h : c.id = id
    · rw [if_pos h, List.find?_cons_of_pos _ (by simp [hf c, h]),
        List.find?_cons_of_pos _ (by simp [h])]
      rfl
    · rw [if_neg h, List.find?_cons_of_neg _ (by simp [h]),
        List.find?_cons_of_neg _ (by simp [h])]
      exact ih

theorem filter_card_id_map (g : Run → Run) (hc : ∀ r, (g r).card_id = r.card_id)
    (runs : List Run) (cid : String) :
    (runs.map g).filter (fun r => r.card_id = cid) =
      (runs.filter (fun r => r.card_id = cid)).map g := by
  induction runs with
  | nil => rfl
  | cons r rs ih =>
    by_cases h : r.card_id = cid
    · simp [List.filter_cons, hc, h, ih]
    · simp [List.filter_cons, hc, h, ih]

theorem laterRun_map (g : Run → Run) (ht : ∀ r, (g r).created_at = r.created_at)
    (a b : Run) : laterRun (g a) (g b) = g (laterRun a b) := by
  simp only [laterRun, ht]
  by_cases h : a.created_at ≤ b.created_at <;> simp [h]

theorem latestRunAux_map (g : Run → Run) (ht : ∀ r, (g r).created_at = r.created_at)
    (r : Run) (rs : List Run) :
    latestRunAux (g r) (rs.map g) = g (latestRunAux r rs) := by
  induction rs generalizing r with
  | nil => rfl
  | cons x xs ih =>
    simp only [List.map_cons, latestRunAux, laterRun_map g ht]
    exact ih _

theorem latestRun_map (g : Run → Run) (hc : ∀ r, (g r).card_id = r.card_id)
    (ht : ∀ r, (g r).created_at = r.created_at) (runs : List Run) (cid : String) :
    latestRun (runs.map g) cid = (latestRun runs cid).map g := by
  unfold latestRun
  rw [filter_card_id_map g hc]
  cases hf : runs.filter (fun r => r.card_id = cid) with
  | nil => rfl
  | cons r rs => simp [latestRunAux_map g ht]

theorem latestRun_updateRunStatus (runs : List Run) (cid : String) (rid : Nat)
    (st : String) :
    latestRun (updateRunStatus runs rid st) cid =
      (latestRun runs cid).map (fun r => if r.id = rid then { r with status := st } else r) := by
  unfold updateRunStatus
  apply latestRun_map
  · intro r; by_cases h : r.id = rid <;> simp [h]
  · intro r; by_cases h : r.id = rid <;> simp [h]

theorem filter_after_erase {α} (p : α → Prop) [DecidablePred p] (l : List α) :
    ((l.filter (fun a => ¬ p a)).filter (fun a => p a)) = [] := by
  induction l with
  | nil => rfl
  | cons a t ih => by_cases h : p a <;> simp [List.filter_cons, h, ih]

theorem find?_after_erase {α} (p : α → Prop) [DecidablePred p] (l : List α) :
    ((l.filter (fun a => ¬ p a)).find? (fun a => p a)) = none := by
  induction l with
  | nil => rfl
  | cons a t ih => by_cases h : p a <;> simp [List.filter_cons, List.find?_cons, h, ih]

theorem regGet_regDel_self (m : List (String × Int)) (k : String) :
    regGet (regDel m k) k = none := by
  unfold regGet regDel
  rw [find?_after_erase (fun p => p.1 = k) m]
  rfl

theorem regGet_regDel_ne (m : List (String × Int)) (k j : String) (h : ¬ j = k) :
    regGet (regDel m k) j = regGet m j := by
  unfold regGet regDel
  induction m with
  | nil => rfl
  | cons a t ih =>
    by_cases ha : a.1 = k
    · have haj : ¬ a.1 = j := by
        intro hh
        rw [hh] at ha
        exact h ha
      rw [List.filter_cons_of_neg (by simp [ha]),
        List.find?_cons_of_neg _ (by simp [haj])]
      exact ih
    · by_cases hj : a.1 = j
      · rw [List.filter_cons_of_pos (by simp [ha]),
          List.find?_cons_of_pos _ (by simp [hj]),
          List.find?_cons_of_pos _ (by simp [hj])]
      · rw [List.filter_cons_of_pos (by simp [ha]),
          List.find?_cons_of_neg _ (by simp [hj]),
          List.find?_cons_of_neg _ (by simp [hj])]
        exact ih

theorem regGet_regSet_self (m : List (String × Int)) (k : String) (v : Int) :
    regGet (regSet m k v) k = some v := by
  simp [regGet, regSet, List.find?_cons]

theorem string_ne_append_review (s : String) : ¬ s = s ++ ":review" := by
  intro h
  have hl : s.length = (s ++ ":review").length := congrArg String.length h
  rw [String.length_append] at hl
  have h7 : (":review" : String).length = 7 := rfl
  rw [h7] at hl
  omega

/-! ## C3 -/

/-- C3: a `start` on an existing card whose `project_path` column is
falsy and whose description yields no extracted path is rejected with
the distinguishable `missing_project_path` error and the state is
returned unchanged: nothing is spawned, no run row, registry entry or
log row is added. -/
theorem start_without_project_path_rejected (s : ServerState) (id : String)
    (card : Card) (hcard : findCard s.cards id = some card)
    (hagent : supportedAgents.contains (assigneeOr card) = true)
    (hpp : jsStrFalsy card.project_path = true)
    (hextract : extractProjectPath card.description = none) :
    runEndpoint s id = (RunResp.missingProjectPath, s) := by
  unfold runEndpoint
  rw [hcard]
  have hmem : assigneeOr card ∈ supportedAgents := by simpa using hagent
  simp [hmem, hpp, hextract]

/-- C3 witness: the rejection theorem applied to the concrete pathless
card. -/
theorem start_without_project_path_rejected_witness :
    findCard pathlessState.cards "c2" = some pathlessCard ∧
    supportedAgents.contains (assigneeOr pathlessCard) = true ∧
    jsStrFalsy pathlessCard.project_path = true ∧
    extractProjectPath pathlessCard.description = none ∧
    runEndpoint pathlessState "c2" = (RunResp.missingProjectPath, pathlessState) :=
  ⟨rfl, rfl, rfl, rfl,
    start_without_project_path_rejected pathlessState "c2" pathlessCard rfl rfl rfl rfl⟩

/-! ## Behavior lemmas for the completion handlers -/

theorem handleRunComplete_nonzero (s : ServerState) (id pp : String) (code : Int)
    (hcode : ¬ code = 0) :
    (handleRunComplete s id code pp).cards = s.cards ∧
    (handleRunComplete s id code pp).timers = s.timers ∧
    ∀ run, latestRun s.card_runs id = some run →
      latestRun (handleRunComplete s id code pp).card_runs id =
        some { run with status := "stopped" } := by
  unfold handleRunComplete
  simp only [appendCardLog, appendSystemLog, if_neg hcode]
  refine ⟨?_, ?_, ?_⟩
  · cases h : latestRun s.card_runs id <;> simp [h]
  · cases h : latestRun s.card_runs id <;> simp [h]
  · intro run hrun
    rw [hrun]
    simp only [latestRun_updateRunStatus, hrun, Option.map_some]
    simp

theorem handleRunComplete_zero (s : ServerState) (id pp : String) :
    (handleRunComplete s id 0 pp).cards =
      updateCardList s.cards id
        (fun c => { c with status := "Review/Test", updated_at := s.now + 2 }) ∧
    (handleRunComplete s id 0 pp).timers = s.timers ++ [⟨2000, id, pp⟩] ∧
    ∀ run, latestRun s.card_runs id = some run →
      latestRun (handleRunComplete s id 0 pp).card_runs id =
        some { run with status := "stopped" } := by
  unfold handleRunComplete
  simp only [appendCardLog, appendSystemLog, updateCardStatus]
  refine ⟨?_, ?_, ?_⟩
  · cases h : latestRun s.card_runs id <;> simp [h]
  · cases h : latestRun s.card_runs id <;> simp [h]
  · intro run hrun
    simp [hrun, latestRun_updateRunStatus]

/-! ## C6 -/

/-- C6: when the implementation process exits with a nonzero code, the
most recent run row is marked `stopped`, while the card table — in
particular the card's `status` — and the timer queue are left unchanged:
there is no automatic revert of the card on failure. -/
theorem nonzero_exit_marks_run_only (s : ServerState) (id pp : String) (code : Int)
    (hcode : ¬ code = 0) :
    (handleRunComplete s id code pp).cards = s.cards ∧
    (handleRunComplete s id code pp).timers = s.timers ∧
    ∀ run, latestRun s.card_runs id = some run →
      latestRun (handleRunComplete s id code pp).card_runs id =
        some { run with status := "stopped" } :=
  handleRunComplete_nonzero s id pp code hcode

/-- C6 witness: the frame theorem applied at a concrete failing exit. -/
theorem nonzero_exit_marks_run_only_witness :
    ¬ (1 : Int) = 0 ∧
    (handleRunComplete inProgressState "c1" 1 "/repo").cards = inProgressState.cards ∧
    (handleRunComplete inProgressState "c1" 1 "/repo").timers = inProgressState.timers ∧
    latestRun (handleRunComplete inProgressState "c1" 1 "/repo").card_runs "c1" =
      some { demoRun with status := "stopped" } := by
  have h := nonzero_exit_marks_run_only inProgressState "c1" "/repo" 1 (by decide)
  exact ⟨by decide, h.1, h.2.1, h.2.2 demoRun rfl⟩

/-! ## C2 -/

theorem startReviewTest_creates_review_run (s : ServerState) (id pp : String)
    (card : Card) (hcard : findCard s.cards id = some card)
    (hstatus : card.status = "Review/Test") :
    (startReviewTest s id pp).card_runs = s.card_runs ++
      [⟨s.nextRunId, id, s.now + 2, "claude-review", some s.nextPid, "running",
        reviewLogPathFor s id, pp⟩] := by
  unfold startReviewTest
  rw [hcard]
  simp [hstatus, appendCardLog, appendSystemLog, spawnAgent, insertRun, reviewLogPathFor]

/-- C2: when the implementation process exits with code 0, the card
moves to `Review/Test`, the most recent run row is marked `stopped`, a
review start is scheduled after the fixed 2000&thinsp;ms delay, and
firing that timer records a new Review Run with the reviewer agent kind
`claude-review` in `running` status — all without any external call. -/
theorem impl_exit_zero_chains_review (s : ServerState) (id pp : String) (card : Card)
    (run : Run) (hcard : findCard s.cards id = some card)
    (hrun : latestRun s.card_runs id = some run) :
    ((findCard (handleRunComplete s id 0 pp).cards id).map (fun c => c.status)
      = some "Review/Test") ∧
    (latestRun (handleRunComplete s id 0 pp).card_runs id
      = some { run with status := "stopped" }) ∧
    ((handleRunComplete s id 0 pp).timers = s.timers ++ [⟨2000, id, pp⟩]) ∧
    ((startReviewTest (handleRunComplete s id 0 pp) id pp).card_runs.getLast?.map
      (fun r => (r.card_id, r.agent, r.status)) = some (id, "claude-review", "running")) := by
  obtain ⟨hc, ht, hr⟩ := handleRunComplete_zero s id pp
  have hfc : findCard (handleRunComplete s id 0 pp).cards id =
      some { card with status := "Review/Test", updated_at := s.now + 2 } := by
    rw [hc, findCard_updateCardList_self s.cards id
      (fun c => { c with status := "Review/Test", updated_at := s.now + 2 })
      (fun c => rfl), hcard]
    rfl
  refine ⟨by rw [hfc]; rfl, hr run hrun, ht, ?_⟩
  rw [startReviewTest_creates_review_run _ _ _ _ hfc rfl]
  simp

/-- C2 witness: the chained-review theorem applied to the concrete
started card; the hypotheses are discharged by evaluation. -/
theorem impl_exit_zero_chains_review_witness :
    findCard startedState.cards "c1" =
      some { demoCard with status := "In Progress", updated_at := 1003 } ∧
    latestRun startedState.card_runs "c1" =
      some ⟨1, "c1", 1002, "claude", some 101, "running", "logs/c1.log", "/repo"⟩ ∧
    ((findCard (handleRunComplete startedState "c1" 0 "/repo").cards "c1").map
      (fun c => c.status) = some "Review/Test") ∧
    ((startReviewTest (handleRunComplete startedState "c1" 0 "/repo") "c1" "/repo").card_runs.getLast?.map
      (fun r => (r.card_id, r.agent, r.status)) = some ("c1", "claude-review", "running")) := by
  have h := impl_exit_zero_chains_review startedState "c1" "/repo"
    { demoCard with status := "In Progress", updated_at := 1003 }
    ⟨1, "c1", 1002, "claude", some 101, "running", "logs/c1.log", "/repo"⟩
    (by decide) (by decide)
  exact ⟨by decide, by decide, h.1, h.2.2.2⟩

/-! ## C5 -/

/-- C5 counterexample: after `stop` the card is `Stopped`, yet a
subsequently arriving exit callback reporting exit code 0 for the
stopped run moves the card to `Review/Test`: the success transition is
re-triggered, contrary to the claim. -/
theorem late_zero_exit_flips_stopped_card :
    ((findCard stoppedState.cards "c1").map (fun c => c.status) = some "Stopped") ∧
    ((findCard (handleRunComplete stoppedState "c1" 0 "/repo").cards "c1").map
      (fun c => c.status) = some "Review/Test") := ⟨by decide, by decide⟩

/-- C5 (amended): `handleRunComplete` does not consult the card's
current status.  An exit callback with a nonzero code (the result of an
actual termination) leaves the card table unchanged, so a `Stopped` card
stays `Stopped`; but a callback reporting exit code 0 — possible through
the external run-complete endpoint — sets any card, including a
`Stopped` one, to `Review/Test`. -/
theorem late_exit_callback_status (s : ServerState) (id pp : String) (code : Int)
    (card : Card) (hcard : findCard s.cards id = some card) :
    (¬ code = 0 → (handleRunComplete s id code pp).cards = s.cards) ∧
    ((findCard (handleRunComplete s id 0 pp).cards id).map (fun c => c.status)
      = some "Review/Test") := by
  constructor
  · intro hcode
    exact (handleRunComplete_nonzero s id pp code hcode).1
  · obtain ⟨hc, _, _⟩ := handleRunComplete_zero s id pp
    rw [hc, findCard_updateCardList_self s.cards id
      (fun c => { c with status := "Review/Test", updated_at := s.now + 2 })
      (fun c => rfl), hcard]
    rfl

/-- C5 witness: the late-callback theorem applied to the concrete
stopped card. -/
theorem late_exit_callback_status_witness :
    findCard stoppedPlainState.cards "c1" = some { demoCard with status := "Stopped" } ∧
    ¬ (1 : Int) = 0 ∧
    (handleRunComplete stoppedPlainState "c1" 1 "/repo").cards = stoppedPlainState.cards ∧
    ((findCard (handleRunComplete stoppedPlainState "c1" 0 "/repo").cards "c1").map
      (fun c => c.status) = some "Review/Test") := by
  have h := late_exit_callback_status stoppedPlainState "c1" "/repo" 1
    { demoCard with status := "Stopped" } (by decide)
  exact ⟨by decide, by decide, h.1 (by decide), h.2⟩

/-! ## C1 -/

/-- C1 counterexample: while a live process handle for the card's key is
registered, a `start` request is not rejected: it answers `ok`, spawns a
fresh process (pid 101) and overwrites the registry entry. -/
theorem second_start_not_rejected :
    regGet liveHandleState.activeProcesses "c1" = some 77 ∧
    (runEndpoint liveHandleState "c1").1 = RunResp.ok (some 101) "logs/c1.log" "/repo" ∧
    (runEndpoint liveHandleState "c1").2.launches =
      [LaunchEvent.spawned "c1" "claude" "c1" "/repo" 101] ∧
    regGet (runEndpoint liveHandleState "c1").2.activeProcesses "c1" = some 101 :=
  ⟨by decide, by decide, by decide, by decide⟩

/-- C1 (amended): the run endpoint never consults the process registry.
Whenever the card exists, has a CLI agent and a resolvable project path,
the request succeeds, a new process is spawned, and the registry entry
for the card's key is replaced by the fresh pid — regardless of any live
handle that was registered before. -/
theorem start_ignores_process_registry (s : ServerState) (id : String) (card : Card)
    (hcard : findCard s.cards id = some card)
    (hcont : supportedAgents.contains (assigneeOr card) = true)
    (hhttp : ¬ (assigneeOr card = "copilot" ∨ assigneeOr card = "antigravity"))
    (hpath : (jsStrFalsy card.project_path &&
      (extractProjectPath card.description).isNone) = false) :
    (runEndpoint s id).1 =
      RunResp.ok (some s.nextPid) (logPathFor s id) (resolveProjectPath s.serverCwd card) ∧
    regGet (runEndpoint s id).2.activeProcesses id = some s.nextPid ∧
    (runEndpoint s id).2.launches = s.launches ++
      [.spawned id (assigneeOr card) id (resolveProjectPath s.serverCwd card) s.nextPid] := by
  unfold runEndpoint
  rw [hcard]
  dsimp only
  rw [if_neg (not_not_intro hcont), if_neg (by simp [hpath]), if_neg hhttp]
  simp [appendCardLog, appendSystemLog, spawnAgent, insertRun,
    updateCardStatus, regGet_regSet_self, logPathFor]

/-- C1 witness: the amended theorem applied at the state that already
holds a live handle for the card. -/
theorem start_ignores_process_registry_witness :
    findCard liveHandleState.cards "c1" = some { demoCard with status := "In Progress" } ∧
    supportedAgents.contains (assigneeOr { demoCard with status := "In Progress" }) = true ∧
    (jsStrFalsy ({ demoCard with status := "In Progress" } : Card).project_path &&
      (extractProjectPath ({ demoCard with status := "In Progress" } : Card).description).isNone)
      = false ∧
    (runEndpoint liveHandleState "c1").1 = RunResp.ok (some 101) "logs/c1.log" "/repo" ∧
    regGet (runEndpoint liveHandleState "c1").2.activeProcesses "c1" = some 101 := by
  have h := start_ignores_process_registry liveHandleState "c1"
    { demoCard with status := "In Progress" } (by decide) (by decide) (by decide) (by decide)
  exact ⟨by decide, by decide, by decide, h.1, h.2.1⟩

/-! ## Lemmas about deletion and review completion -/

theorem assoc_find_none_after_filter {β : Type} (l : List (String × β)) (k q : String)
    (h : l.find? (fun p => p.1 = k) = none) :
    (l.filter (fun p => ¬ p.1 = q)).find? (fun p => p.1 = k) = none := by
  induction l with
  | nil => rfl
  | cons a t ih =>
    have hak : ¬ a.1 = k := by
      intro hk
      rw [List.find?_cons_of_pos _ (by simp [hk])] at h
      exact Option.noConfusion h
    have ht : t.find? (fun p => p.1 = k) = none := by
      rwa [List.find?_cons_of_neg _ (by simp [hak])] at h
    by_cases haq : a.1 = q
    · rw [List.filter_cons_of_neg (by simp [haq])]
      exact ih ht
    · rw [List.filter_cons_of_pos (by simp [haq]),
        List.find?_cons_of_neg _ (by simp [hak])]
      exact ih ht

theorem fsRead_fsDelete_self (fs : List (String × String)) (p : String) :
    fsRead (fsDelete fs p) p = none := by
  unfold fsRead fsDelete
  rw [find?_after_erase (fun q => q.1 = p) fs]
  rfl

theorem fsRead_none_mono (fs : List (String × String)) (p q : String)
    (h : fsRead fs p = none) : fsRead (fsDelete fs q) p = none := by
  unfold fsRead fsDelete at *
  rw [assoc_find_none_after_filter fs p q]
  · rfl
  · cases hf : fs.find? (fun r => r.1 = p) with
    | none => rfl
    | some v => rw [hf] at h; exact Option.noConfusion h

theorem regGet_none_mono (m : List (String × Int)) (k q : String)
    (h : regGet m k = none) : regGet (regDel m q) k = none := by
  unfold regGet regDel at *
  rw [assoc_find_none_after_filter m k q]
  · rfl
  · cases hf : m.find? (fun r => r.1 = k) with
    | none => rfl
    | some v => rw [hf] at h; exact Option.noConfusion h

/-- Projection facts for one registry-cleanup step of the delete path. -/
theorem deleteKillStep_proj (t : ServerState) (key : String) :
    (deleteKillStep t key).cards = t.cards ∧
    (deleteKillStep t key).card_runs = t.card_runs ∧
    (deleteKillStep t key).card_logs = t.card_logs ∧
    (deleteKillStep t key).files = t.files ∧
    (deleteKillStep t key).logsDir = t.logsDir ∧
    (deleteKillStep t key).activeProcesses = regDel t.activeProcesses key := by
  unfold deleteKillStep
  cases h : regGet t.activeProcesses key with
  | none => exact ⟨rfl, rfl, rfl, rfl, rfl, rfl⟩
  | some p =>
    by_cases h0 : p = 0
    · simp [h0]
    · by_cases hneg : p < 0 <;> simp [h0, hneg, abortHandle, killPidTree]

theorem deleteKillStep_kills_mem (t : ServerState) (key : String) (p : Int)
    (h : regGet t.activeProcesses key = some p) (hp : 0 < p) :
    p ∈ (deleteKillStep t key).kills := by
  unfold deleteKillStep
  rw [h]
  dsimp only
  rw [if_neg (by omega), if_neg (by omega)]
  simp [killPidTree]

theorem deleteKillStep_aborts_mem (t : ServerState) (key : String) (p : Int)
    (h : regGet t.activeProcesses key = some p) (hp : p < 0) :
    p ∈ (deleteKillStep t key).aborts := by
  unfold deleteKillStep
  rw [h]
  dsimp only
  rw [if_neg (by omega), if_pos hp]
  simp [abortHandle]

theorem deleteKillStep_kills_sub (t : ServerState) (key : String) (q : Int)
    (h : q ∈ t.kills) : q ∈ (deleteKillStep t key).kills := by
  unfold deleteKillStep
  cases hr : regGet t.activeProcesses key with
  | none => exact h
  | some p =>
    by_cases h0 : p = 0
    · simp [h0, h]
    · by_cases hneg : p < 0 <;> simp [h0, hneg, abortHandle, killPidTree, h]

theorem deleteKillStep_aborts_sub (t : ServerState) (key : String) (q : Int)
    (h : q ∈ t.aborts) : q ∈ (deleteKillStep t key).aborts := by
  unfold deleteKillStep
  cases hr : regGet t.activeProcesses key with
  | none => exact h
  | some p =>
    by_cases h0 : p = 0
    · simp [h0, h]
    · by_cases hneg : p < 0 <;> simp [h0, hneg, abortHandle, killPidTree, h]

/-- The full teardown contract of `deleteCardAndArtifacts`: both registry
keys are gone, no run / card-log / card rows for the card remain, all
three per-card files are gone, and every live handle with a real pid was
killed (positive) or aborted (negative). -/
theorem deleteCardAndArtifacts_spec (t : ServerState) (id : String) :
    regGet (deleteCardAndArtifacts t id).activeProcesses id = none ∧
    regGet (deleteCardAndArtifacts t id).activeProcesses (id ++ ":review") = none ∧
    (deleteCardAndArtifacts t id).card_runs.filter (fun r => r.card_id = id) = [] ∧
    (deleteCardAndArtifacts t id).card_logs.filter (fun l => l.card_id = id) = [] ∧
    findCard (deleteCardAndArtifacts t id).cards id = none ∧
    fsRead (deleteCardAndArtifacts t id).files (logPathFor t id) = none ∧
    fsRead (deleteCardAndArtifacts t id).files (reviewLogPathFor t id) = none ∧
    fsRead (deleteCardAndArtifacts t id).files (promptPathFor t id) = none ∧
    (∀ p, regGet t.activeProcesses id = some p → 0 < p →
      p ∈ (deleteCardAndArtifacts t id).kills) ∧
    (∀ p, regGet t.activeProcesses (id ++ ":review") = some p → 0 < p →
      p ∈ (deleteCardAndArtifacts t id).kills) ∧
    (∀ p, regGet t.activeProcesses id = some p → p < 0 →
      p ∈ (deleteCardAndArtifacts t id).aborts) ∧
    (∀ p, regGet t.activeProcesses (id ++ ":review") = some p → p < 0 →
      p ∈ (deleteCardAndArtifacts t id).aborts) := by
  obtain ⟨k1cards, k1runs, k1logs, k1files, k1dir, k1act⟩ := deleteKillStep_proj t id
  obtain ⟨k2cards, k2runs, k2logs, k2files, k2dir, k2act⟩ :=
    deleteKillStep_proj (deleteKillStep t id) (id ++ ":review")
  unfold deleteCardAndArtifacts
  dsimp only
  refine ⟨?_, ?_, ?_, ?_, ?_, ?_, ?_, ?_, ?_, ?_, ?_, ?_⟩
  · split <;> (try split) <;> (try split) <;>
      simp [killPidTree, k2act, k1act, regGet_none_mono _ _ _ (regGet_regDel_self _ _)]
  · split <;> (try split) <;> (try split) <;>
      simp [killPidTree, k2act, k1act, regGet_regDel_self]
  · exact filter_after_erase _ _
  · exact filter_after_erase _ _
  · exact find?_after_erase _ _
  · apply fsRead_none_mono
    apply fsRead_none_mono
    split <;> (try split) <;> (try split) <;>
      simp [killPidTree, logPathFor, k2dir, k1dir, k2files, k1files, fsRead_fsDelete_self]
  · apply fsRead_none_mono
    split <;> (try split) <;> (try split) <;>
      simp [killPidTree, reviewLogPathFor, k2dir, k1dir, k2files, k1files, fsRead_fsDelete_self]
  · split <;> (try split) <;> (try split) <;>
      simp [killPidTree, promptPathFor, k2dir, k1dir, k2files, k1files, fsRead_fsDelete_self]
  · intro p hp hpos
    have h1 : p ∈ (deleteKillStep t id).kills := deleteKillStep_kills_mem t id p hp hpos
    have h2 : p ∈ (deleteKillStep (deleteKillStep t id) (id ++ ":review")).kills :=
      deleteKillStep_kills_sub _ _ _ h1
    split <;> (try split) <;> (try split) <;> simp [killPidTree, h2]
  · intro p hp hpos
    have h1 : p ∈ (deleteKillStep (deleteKillStep t id) (id ++ ":review")).kills := by
      apply deleteKillStep_kills_mem _ _ _ _ hpos
      rw [k1act, regGet_regDel_ne _ _ _ (fun hh => string_ne_append_review id hh.symm)]
      exact hp
    split <;> (try split) <;> (try split) <;> simp [killPidTree, h1]
  · intro p hp hneg
    have h1 : p ∈ (deleteKillStep t id).aborts := deleteKillStep_aborts_mem t id p hp hneg
    have h2 : p ∈ (deleteKillStep (deleteKillStep t id) (id ++ ":review")).aborts :=
      deleteKillStep_aborts_sub _ _ _ h1
    split <;> (try split) <;> (try split) <;> simp [killPidTree, h2]
  · intro p hp hneg
    have h1 : p ∈ (deleteKillStep (deleteKillStep t id) (id ++ ":review")).aborts := by
      apply deleteKillStep_aborts_mem _ _ _ _ hneg
      rw [k1act, regGet_regDel_ne _ _ _ (fun hh => string_ne_append_review id hh.symm)]
      exact hp
    split <;> (try split) <;> (try split) <;> simp [killPidTree, h1]

/-! ## C9 -/

/-- C9: `delete` is accepted whenever the card exists, regardless of its
state; it terminates any live implementation or review handle (killing
positive pids, aborting negative ones), and afterwards neither registry
entry, nor any run row, card-log row, card row, implementation log,
review log or prompt file for the card remains. -/
theorem delete_removes_everything (s : ServerState) (id : String) (card : Card)
    (hcard : findCard s.cards id = some card) :
    (deleteEndpoint s id).1 = DeleteResp.ok ∧
    regGet (deleteEndpoint s id).2.activeProcesses id = none ∧
    regGet (deleteEndpoint s id).2.activeProcesses (id ++ ":review") = none ∧
    (deleteEndpoint s id).2.card_runs.filter (fun r => r.card_id = id) = [] ∧
    (deleteEndpoint s id).2.card_logs.filter (fun l => l.card_id = id) = [] ∧
    findCard (deleteEndpoint s id).2.cards id = none ∧
    fsRead (deleteEndpoint s id).2.files (logPathFor s id) = none ∧
    fsRead (deleteEndpoint s id).2.files (reviewLogPathFor s id) = none ∧
    fsRead (deleteEndpoint s id).2.files (promptPathFor s id) = none ∧
    (∀ p, regGet s.activeProcesses id = some p → 0 < p →
      p ∈ (deleteEndpoint s id).2.kills) ∧
    (∀ p, regGet s.activeProcesses (id ++ ":review") = some p → 0 < p →
      p ∈ (deleteEndpoint s id).2.kills) ∧
    (∀ p, regGet s.activeProcesses id = some p → p < 0 →
      p ∈ (deleteEndpoint s id).2.aborts) ∧
    (∀ p, regGet s.activeProcesses (id ++ ":review") = some p → p < 0 →
      p ∈ (deleteEndpoint s id).2.aborts) := by
  have hend : deleteEndpoint s id =
      (DeleteResp.ok, deleteCardAndArtifacts (appendSystemLog s "system"
        ("Card deleted " ++ id)) id) := by
    unfold deleteEndpoint
    rw [hcard]
  have hspec := deleteCardAndArtifacts_spec
    (appendSystemLog s "system" ("Card deleted " ++ id)) id
  rw [hend]
  dsimp only
  obtain ⟨a1, a2, a3, a4, a5, a6, a7, a8, a9, a10, a11, a12⟩ := hspec
  refine ⟨rfl, a1, a2, a3, a4, a5, ?_, ?_, ?_, ?_, ?_, ?_, ?_⟩
  · simpa [appendSystemLog, logPathFor] using a6
  · simpa [appendSystemLog, reviewLogPathFor] using a7
  · simpa [appendSystemLog, promptPathFor] using a8
  · intro p hp hpos
    exact a9 p (by simpa [appendSystemLog] using hp) hpos
  · intro p hp hpos
    exact a10 p (by simpa [appendSystemLog] using hp) hpos
  · intro p hp hneg
    exact a11 p (by simpa [appendSystemLog] using hp) hneg
  · intro p hp hneg
    exact a12 p (by simpa [appendSystemLog] using hp) hneg

/-- C9 witness: the teardown theorem applied to the fully loaded card,
whose live implementation handle (pid 101) and live review handle
(pid 102) are both killed. -/
theorem delete_removes_everything_witness :
    findCard fullyLoadedState.cards "c1" = some { demoCard with status := "Review/Test" } ∧
    (deleteEndpoint fullyLoadedState "c1").1 = DeleteResp.ok ∧
    regGet (deleteEndpoint fullyLoadedState "c1").2.activeProcesses "c1" = none ∧
    (deleteEndpoint fullyLoadedState "c1").2.card_runs.filter
      (fun r => r.card_id = "c1") = [] ∧
    findCard (deleteEndpoint fullyLoadedState "c1").2.cards "c1" = none ∧
    fsRead (deleteEndpoint fullyLoadedState "c1").2.files "logs/c1.log" = none ∧
    (101 : Int) ∈ (deleteEndpoint fullyLoadedState "c1").2.kills ∧
    (102 : Int) ∈ (deleteEndpoint fullyLoadedState "c1").2.kills := by
  have h := delete_removes_everything fullyLoadedState "c1"
    { demoCard with status := "Review/Test" } (by decide)
  refine ⟨by decide, h.1, h.2.1, h.2.2.2.1, h.2.2.2.2.2.1, ?_, ?_, ?_⟩
  · have := h.2.2.2.2.2.2.1
    simpa [logPathFor, fullyLoadedState, initState] using this
  · exact h.2.2.2.2.2.2.2.2.2.1 101 (by decide) (by decide)
  · exact h.2.2.2.2.2.2.2.2.2.2.1 102 (by decide) (by decide)

/-! ## C7 -/

theorem handleReviewComplete_card_runs (s : ServerState) (id : String) (code : Int) :
    (handleReviewComplete s id code).card_runs = s.card_runs := by
  unfold handleReviewComplete
  dsimp only
  split
  · split <;> rfl
  · rfl

/-- An explicit stop with a live registry handle (nonzero pid) marks the
card's most recent run row `stopped`. -/
theorem stopEndpoint_marks_run (s : ServerState) (id : String) (card : Card)
    (run : Run) (p : Int) (hcard : findCard s.cards id = some card)
    (hrun : latestRun s.card_runs id = some run)
    (hreg : regGet s.activeProcesses id = some p) (hp0 : ¬ p = 0) :
    latestRun (stopEndpoint s id).2.card_runs id =
      some { run with status := "stopped" } := by
  unfold stopEndpoint
  rw [hcard]
  dsimp only
  rw [hreg]
  dsimp only
  rw [if_neg hp0, hrun]
  by_cases hpneg : p < 0 <;>
    simp [hpneg, abortHandle, killPidTree, appendCardLog, appendSystemLog,
      updateCardStatus, latestRun_updateRunStatus, hrun]

/-- C7 counterexample: when the review process exits, the Review Run row
is not updated — it stays in `running` status although its process has
exited, contrary to the claimed lifecycle. -/
theorem review_run_left_running_after_exit :
    ((latestRun reviewingState.card_runs "c1").map (fun r => (r.agent, r.status)) =
      some ("claude-review", "running")) ∧
    (handleReviewComplete reviewingState "c1" 0).card_runs = reviewingState.card_runs ∧
    ((latestRun (handleReviewComplete reviewingState "c1" 0).card_runs "c1").map
      (fun r => (r.agent, r.status)) = some ("claude-review", "running")) := by
  refine ⟨by decide, handleReviewComplete_card_runs reviewingState "c1" 0, ?_⟩
  rw [handleReviewComplete_card_runs reviewingState "c1" 0]
  decide

/-- C7 (amended): implementation-run exit (`handleRunComplete`) marks
the most recent run row `stopped`, an explicit stop with a live handle
(`stopEndpoint`) marks it `stopped`, and card deletion removes every
run row of the card, but review-process exit (`handleReviewComplete`)
never updates any run row: a Review Run stays `running` after its
process has exited until an explicit stop or a delete. -/
theorem run_row_stop_marking (s : ServerState) (id pp : String) (code : Int) :
    ((handleReviewComplete s id code).card_runs = s.card_runs) ∧
    (∀ run, latestRun s.card_runs id = some run →
      latestRun (handleRunComplete s id code pp).card_runs id =
        some { run with status := "stopped" }) ∧
    (∀ card run p, findCard s.cards id = some card →
      latestRun s.card_runs id = some run →
      regGet s.activeProcesses id = some p → ¬ p = 0 →
      latestRun (stopEndpoint s id).2.card_runs id =
        some { run with status := "stopped" }) ∧
    ((deleteCardAndArtifacts s id).card_runs.filter (fun r => r.card_id = id) = []) := by
  refine ⟨handleReviewComplete_card_runs s id code, ?_, ?_, ?_⟩
  · intro run hrun
    by_cases hcode : code = 0
    · rw [hcode]
      exact (handleRunComplete_zero s id pp).2.2 run hrun
    · exact (handleRunComplete_nonzero s id pp code hcode).2.2 run hrun
  · intro card run p hcard hrun hreg hp0
    exact stopEndpoint_marks_run s id card run p hcard hrun hreg hp0
  · exact (deleteCardAndArtifacts_spec s id).2.2.1

/-- C7 witness: the marking theorem applied at the concrete running
implementation state (exit callback, explicit stop, and delete). -/
theorem run_row_stop_marking_witness :
    (handleReviewComplete inProgressState "c1" 1).card_runs = inProgressState.card_runs ∧
    latestRun inProgressState.card_runs "c1" = some demoRun ∧
    latestRun (handleRunComplete inProgressState "c1" 1 "/repo").card_runs "c1" =
      some { demoRun with status := "stopped" } ∧
    latestRun (stopEndpoint inProgressState "c1").2.card_runs "c1" =
      some { demoRun with status := "stopped" } ∧
    (deleteCardAndArtifacts inProgressState "c1").card_runs.filter
      (fun r => r.card_id = "c1") = [] := by
  have h := run_row_stop_marking inProgressState "c1" "/repo" 1
  exact ⟨h.1, by decide, h.2.1 demoRun (by decide),
    h.2.2.1 { demoCard with status := "In Progress" } demoRun 101
      (by decide) (by decide) (by decide) (by decide), h.2.2.2⟩

/-! ## C4 -/

/-- C4: on review exit code 0 the accumulated review log is rendered by
the Output Normalizer; if the rendering contains the literal sentinel
`REVIEW_PASSED` or (case-insensitively) the phrase `looks good` by
substring containment, the card is set to `Done`; otherwise the card
stays in `Review/Test` and the issues-found wake notification is queued
for the external notifier. -/
theorem review_pass_detection (s : ServerState) (id : String) (card : Card)
    (hcard : findCard s.cards id = some card)
    (hstatus : card.status = "Review/Test") :
    ((strContains (prettyStreamJson ((fsRead s.files (reviewLogPathFor s id)).getD ""))
        "REVIEW_PASSED"
      || strContains (strToLower (prettyStreamJson
        ((fsRead s.files (reviewLogPathFor s id)).getD ""))) "looks good") = true →
      ((findCard (handleReviewComplete s id 0).cards id).map (fun c => c.status) =
        some "Done")) ∧
    ((strContains (prettyStreamJson ((fsRead s.files (reviewLogPathFor s id)).getD ""))
        "REVIEW_PASSED"
      || strContains (strToLower (prettyStreamJson
        ((fsRead s.files (reviewLogPathFor s id)).getD ""))) "looks good") = false →
      ((findCard (handleReviewComplete s id 0).cards id).map (fun c => c.status) =
        some "Review/Test") ∧
      (handleReviewComplete s id 0).wakes = s.wakes ++
        [⟨"review-issues:" ++ id, "Kanban: Review found issues - " ++ card.title, 5000⟩]) := by
  unfold handleReviewComplete
  simp only [appendCardLog, appendSystemLog, reviewLogPathFor]
  rw [hcard]
  constructor
  · intro hpass
    simp only [hpass]
    simp [updateCardStatus, queueWake, findCard_updateCardList_self, hcard]
  · intro hfail
    simp only [hfail]
    simp [queueWake, hcard, hstatus]

set_option maxRecDepth 8000 in
/-- C4 witness: the detection theorem applied to a review log that is
exactly the sentinel line; the normalizer renders it and the containment
check fires, moving the card to `Done`. -/
theorem review_pass_detection_witness :
    findCard passedReviewState.cards "c1" = some { demoCard with status := "Review/Test" } ∧
    fsRead passedReviewState.files (reviewLogPathFor passedReviewState "c1") =
      some "REVIEW_PASSED\n" ∧
    (strContains (prettyStreamJson ((fsRead passedReviewState.files
        (reviewLogPathFor passedReviewState "c1")).getD "")) "REVIEW_PASSED"
      || strContains (strToLower (prettyStreamJson ((fsRead passedReviewState.files
        (reviewLogPathFor passedReviewState "c1")).getD ""))) "looks good") = true ∧
    ((findCard (handleReviewComplete passedReviewState "c1" 0).cards "c1").map
      (fun c => c.status) = some "Done") := by
  have h := review_pass_detection passedReviewState "c1"
    { demoCard with status := "Review/Test" } (by decide) (by decide)
  exact ⟨by decide, by decide, by decide, h.1 (by decide)⟩

/-! ## C10 -/

set_option maxRecDepth 8000 in
/-- C10 counterexample: a non-numeric `lines` value is not replaced by
the default 200 — `Number` yields NaN, the clamp propagates it, the
slice start collapses to 0, and the whole 210-line log is returned
instead of the last 200 lines. -/
theorem nonnumeric_line_count_not_defaulted :
    jsToNumber "abc" = JsNum.nan ∧
    terminalLineCount (some "abc") = JsNum.nan ∧
    (terminalEndpoint longLogState "c1" (some "abc") (some "0")).text =
      String.intercalate "\n" (List.replicate 210 "x") ∧
    String.intercalate "\n" (List.replicate 210 "x") ≠
      String.intercalate "\n" (List.replicate 200 "x") :=
  ⟨by decide, by decide, by decide, by decide⟩

/-- C10 (amended): an absent `lines` query defaults to 200 and a
numeric one — of any `Number()` shape, integer, fractional, exponent or
radix-prefixed — is clamped into `[20, 4000]`; but a non-numeric value
becomes NaN, is not clamped, and makes the endpoint return the whole
log.  Pretty rendering defaults to on, and a missing log file yields a
successful response with `exists_ = false` and empty text. -/
theorem terminal_tail_clamping (s : ServerState) (id : String)
    (linesQ prettyQ : Option String) :
    terminalLineCount none = JsNum.dec 200 0 ∧
    (∀ str m e, jsToNumber str = JsNum.dec m e →
      terminalLineCount (some str) =
        (if decLe m e 20 0 then JsNum.dec 20 0
         else if decLe m e 4000 0 then JsNum.dec m e
         else JsNum.dec 4000 0)) ∧
    (∀ str, jsToNumber str = JsNum.nan → ∀ raw,
      fsRead s.files (logPathFor s id) = some raw →
      (terminalEndpoint s id (some str) (some "0")).text =
        String.intercalate "\n" (splitLines raw)) ∧
    terminalPretty none = true ∧
    (fsRead s.files (logPathFor s id) = none →
      terminalEndpoint s id linesQ prettyQ = ⟨true, false, logPathFor s id, ""⟩) := by
  refine ⟨rfl, ?_, ?_, rfl, ?_⟩
  · intro str m e h
    simp only [terminalLineCount, h, jsMax, jsMin]
    by_cases h20 : decLe m e 20 0
    · simp [h20, show decLe 20 0 4000 0 = true from by decide]
    · by_cases h4000 : decLe m e 4000 0 <;> simp [h20, h4000]
  · intro str h raw hraw
    unfold terminalEndpoint
    dsimp only
    rw [hraw]
    simp [terminalLineCount, h, jsMax, jsMin, terminalSliceStart, terminalPretty]
  · intro hnone
    unfold terminalEndpoint
    dsimp only
    rw [hnone]

set_option maxRecDepth 8000 in
/-- C10 witness: the clamping theorem applied at concrete query values
of every numeric shape — fractional `1.5` (clamped up to 20, so the
last 20 lines come back), exponent `1e3`, hex `0x10`, plain `50` — plus
the NaN case on the 210-line log and the missing-file case. -/
theorem terminal_tail_clamping_witness :
    jsToNumber "50" = JsNum.dec 50 0 ∧
    terminalLineCount (some "50") = JsNum.dec 50 0 ∧
    jsToNumber "1.5" = JsNum.dec 15 (-1) ∧
    terminalLineCount (some "1.5") = JsNum.dec 20 0 ∧
    jsToNumber "1e3" = JsNum.dec 1 3 ∧
    terminalLineCount (some "1e3") = JsNum.dec 1 3 ∧
    jsToNumber "0x10" = JsNum.dec 16 0 ∧
    terminalLineCount (some "0x10") = JsNum.dec 20 0 ∧
    (terminalEndpoint longLogState "c1" (some "1.5") (some "0")).text =
      String.intercalate "\n" (List.replicate 20 "x") ∧
    jsToNumber "abc" = JsNum.nan ∧
    (terminalEndpoint longLogState "c1" (some "abc") (some "0")).text =
      String.intercalate "\n"
        (splitLines (String.intercalate "\n" (List.replicate 210 "x"))) ∧
    terminalEndpoint longLogState "c2" none none =
      ⟨true, false, logPathFor longLogState "c2", ""⟩ := by
  have h1 := terminal_tail_clamping longLogState "c1" (some "abc") (some "0")
  have h2 := terminal_tail_clamping longLogState "c2" none none
  refine ⟨by decide, ?_, by decide, ?_, by decide, ?_, by decide, ?_, by decide,
    by decide, ?_, ?_⟩
  · rw [h1.2.1 "50" 50 0 (by decide)]; decide
  · rw [h1.2.1 "1.5" 15 (-1) (by decide)]; decide
  · rw [h1.2.1 "1e3" 1 3 (by decide)]; decide
  · rw [h1.2.1 "0x10" 16 0 (by decide)]; decide
  · exact h1.2.2.1 "abc" (by decide) (String.intercalate "\n" (List.replicate 210 "x"))
      (by decide)
  · exact h2.2.2.2.2 (by decide)

/-! ## Text lemmas for the normalizer fallback (C8) -/

theorem splitLinesCh_cons_other (c : Char) (rest : List Char) (hc : ¬ c = '\n')
    (hcr : ¬ (c = '\r' ∧ rest.head? = some '\n')) :
    splitLinesCh (c :: rest) = consHead c (splitLinesCh rest) := by
  unfold splitLinesCh
  split
  case h_1 heq => exact List.noConfusion heq
  case h_2 rest2 heq =>
    injection heq with h1 h2
    exact absurd ⟨h1, by rw [h2]; rfl⟩ hcr
  case h_3 rest2 heq =>
    injection heq with h1 h2
    exact absurd h1 hc
  case h_4 x cx restx hn1 hn2 heq =>
    injection heq with h1 h2
    rw [h1, h2, ← splitLinesCh.eq_def]

theorem trimRight_cons_eq (c : Char) (cs : List Char) :
    trimRight (c :: cs) = (match trimRight cs with
      | [] => if isJsSpace c then [] else [c]
      | r => c :: r) := rfl

theorem trimRight_eq_nil_iff (l : List Char) :
    trimRight l = [] ↔ allSpace l = true := by
  induction l with
  | nil => simp [trimRight, allSpace]
  | cons c cs ih =>
    rw [trimRight_cons_eq]
    cases h : trimRight cs with
    | nil =>
      have hcs : allSpace cs = true := ih.mp h
      by_cases hsp : isJsSpace c = true
      · rw [if_pos hsp]
        constructor
        · intro _
          show (c :: cs).all isJsSpace = true
          rw [List.all_cons, Bool.and_eq_true]
          exact ⟨hsp, hcs⟩
        · intro _
          rfl
      · rw [if_neg hsp]
        constructor
        · intro hh
          exact absurd hh (by simp)
        · intro hh
          exfalso
          have hpair : isJsSpace c = true ∧ cs.all isJsSpace = true := by
            rw [← Bool.and_eq_true, ← List.all_cons]
            exact hh
          exact hsp hpair.1
    | cons r rs =>
      constructor
      · intro hh
        exact absurd hh (by simp)
      · intro hh
        exfalso
        have hpair : isJsSpace c = true ∧ cs.all isJsSpace = true := by
          rw [← Bool.and_eq_true, ← List.all_cons]
          exact hh
        have : trimRight cs = [] := ih.mpr hpair.2
        rw [this] at h
        exact List.noConfusion h

theorem splitLinesCh_ne_nil (l : List Char) : ¬ splitLinesCh l = [] := by
  unfold splitLinesCh
  split
  · simp
  · simp
  · simp
  · cases splitLinesCh _ <;> simp [consHead]

theorem splitLinesCh_eq_single_nil_iff (l : List Char) :
    splitLinesCh l = [[]] ↔ l = [] := by
  constructor
  · unfold splitLinesCh
    split
    · intro _
      rfl
    · intro h
      injection h with _ h2
      exact absurd h2 (splitLinesCh_ne_nil _)
    · intro h
      injection h with _ h2
      exact absurd h2 (splitLinesCh_ne_nil _)
    · next x cx restx hn1 hn2 =>
      intro h
      exfalso
      cases hs : splitLinesCh restx with
      | nil => exact splitLinesCh_ne_nil _ hs
      | cons y ys =>
        rw [hs] at h
        simp [consHead] at h
  · intro h
    rw [h]
    rfl

theorem head?_trimRight (l : List Char) (h : ¬ trimRight l = []) :
    (trimRight l).head? = l.head? := by
  cases l with
  | nil => rfl
  | cons c cs =>
    rw [trimRight_cons_eq] at h ⊢
    cases hr : trimRight cs with
    | nil =>
      rw [hr] at h
      by_cases hsp : isJsSpace c = true
      · exfalso
        apply h
        show (if isJsSpace c then [] else [c]) = []
        rw [if_pos hsp]
      · show (if isJsSpace c then [] else [c]).head? = (c :: cs).head?
        rw [if_neg hsp]
        rfl
    | cons q qs => rfl

theorem dropWhile_idem (p : Char → Bool) (l : List Char) :
    (l.dropWhile p).dropWhile p = l.dropWhile p := by
  induction l with
  | nil => rfl
  | cons c cs ih =>
    by_cases h : p c = true
    · rw [List.dropWhile_cons_of_pos h]
      exact ih
    · rw [List.dropWhile_cons_of_neg h, List.dropWhile_cons_of_neg h]

theorem getLast?_trimRight_not_space (l : List Char) (c : Char)
    (h : (trimRight l).getLast? = some c) : ¬ isJsSpace c = true := by
  induction l with
  | nil => exact absurd h (by simp [trimRight])
  | cons a as ih =>
    rw [trimRight_cons_eq] at h
    cases hr : trimRight as with
    | nil =>
      rw [hr] at h
      by_cases hsp : isJsSpace a = true
      · exfalso
        have hnil : (if isJsSpace a then [] else [a]).getLast? = some c := h
        rw [if_pos hsp] at hnil
        exact Option.noConfusion hnil
      · have hone : (if isJsSpace a then [] else [a]).getLast? = some c := h
        rw [if_neg hsp] at hone
        have hac : a = c := by simpa using hone
        rw [← hac]
        exact hsp
    | cons r rs =>
      rw [hr] at h
      have hcc : (a :: r :: rs).getLast? = some c := h
      rw [List.getLast?_cons_cons] at hcc
      apply ih
      rw [hr]
      exact hcc

theorem trimRight_eq_self_of_last (l : List Char)
    (h : ∀ c, l.getLast? = some c → ¬ isJsSpace c = true) :
    trimRight l = l := by
  induction l with
  | nil => rfl
  | cons a as ih =>
    rw [trimRight_cons_eq]
    cases as with
    | nil =>
      have hna : ¬ isJsSpace a = true := h a (by simp)
      rw [show trimRight ([] : List Char) = [] from rfl, if_neg hna]
    | cons b bs =>
      have hr : trimRight (b :: bs) = b :: bs := by
        apply ih
        intro c hc
        apply h
        rw [List.getLast?_cons_cons]
        exact hc
      rw [hr]

theorem trimRight_idem (l : List Char) :
    trimRight (trimRight l) = trimRight l := by
  apply trimRight_eq_self_of_last
  intro c hc
  exact getLast?_trimRight_not_space l c hc

theorem getLast?_dropWhile (p : Char → Bool) (l : List Char) :
    l.dropWhile p = [] ∨ (l.dropWhile p).getLast? = l.getLast? := by
  induction l with
  | nil => exact Or.inl rfl
  | cons a as ih =>
    by_cases h : p a = true
    · rw [List.dropWhile_cons_of_pos h]
      cases as with
      | nil => exact Or.inl rfl
      | cons b bs =>
        rcases ih with h1 | h2
        · exact Or.inl h1
        · right
          rw [h2, List.getLast?_cons_cons]
    · rw [List.dropWhile_cons_of_neg h]
      exact Or.inr rfl

theorem trimRight_dropWhile_trimRight (l : List Char) :
    trimRight ((trimRight l).dropWhile isJsSpace) = (trimRight l).dropWhile isJsSpace := by
  rcases getLast?_dropWhile isJsSpace (trimRight l) with h | h
  · rw [h]
    rfl
  · apply trimRight_eq_self_of_last
    intro c hc
    rw [h] at hc
    exact getLast?_trimRight_not_space l c hc

theorem trimChars_idem (l : List Char) :
    trimChars (trimChars l) = trimChars l := by
  unfold trimChars
  rw [trimRight_dropWhile_trimRight l, dropWhile_idem]

theorem trimChars_trimRight (l : List Char) :
    trimChars (trimRight l) = trimChars l := by
  unfold trimChars
  rw [trimRight_idem]

theorem trimChars_cons_space (c : Char) (x : List Char) (hc : isJsSpace c = true) :
    trimChars (c :: x) = trimChars x := by
  unfold trimChars
  rw [trimRight_cons_eq]
  cases hr : trimRight x with
  | nil =>
    rw [if_pos hc]
  | cons r rs =>
    rw [List.dropWhile_cons_of_pos hc]

theorem allSpace_cons (c : Char) (cs : List Char) :
    allSpace (c :: cs) = (isJsSpace c && allSpace cs) := by
  simp [allSpace, List.all_cons]

theorem rstripLines_cons_eq (x : List Char) (xs : List (List Char)) :
    rstripLines (x :: xs) = (match rstripLines xs with
      | [] => if allSpace x then [] else [trimRight x]
      | ys => x :: ys) := rfl

theorem rstripLines_eq_nil_iff (L : List (List Char)) :
    rstripLines L = [] ↔ ∀ x ∈ L, allSpace x = true := by
  induction L with
  | nil => simp [rstripLines]
  | cons a as ih =>
    rw [rstripLines_cons_eq]
    cases h : rstripLines as with
    | nil =>
      have has := ih.mp h
      by_cases hsp : allSpace a = true
      · rw [if_pos hsp]
        constructor
        · intro _ x hx
          rcases List.mem_cons.mp hx with h1 | h1
          · rw [h1]; exact hsp
          · exact has x h1
        · intro _; rfl
      · rw [if_neg hsp]
        constructor
        · intro hh
          exact List.noConfusion hh
        · intro hh
          exact absurd (hh a (List.mem_cons_self a as)) hsp
    | cons y ys =>
      constructor
      · intro hh
        exact List.noConfusion hh
      · intro hh
        have hnil : rstripLines as = [] :=
          ih.mpr (fun x hx => hh x (List.mem_cons_of_mem _ hx))
        rw [hnil] at h
        exact List.noConfusion h

theorem consHead_cons (c : Char) (h : List Char) (t : List (List Char)) :
    consHead c (h :: t) = (c :: h) :: t := rfl

theorem allSpace_splitLines : ∀ (n : Nat) (l : List Char), l.length ≤ n →
    allSpace l = true → ∀ x ∈ splitLinesCh l, allSpace x = true := by
  intro n
  induction n with
  | zero =>
    intro l hl _ x hx
    have hnil : l = [] := List.eq_nil_of_length_eq_zero (Nat.le_zero.mp hl)
    subst hnil
    have : x = [] := by simpa [splitLinesCh] using hx
    rw [this]
    rfl
  | succ n ih =>
    intro l hl hsp x hx
    rcases l with _ | ⟨c, rest⟩
    · have : x = [] := by simpa [splitLinesCh] using hx
      rw [this]
      rfl
    · have hcr : isJsSpace c = true ∧ allSpace rest = true := by
        rw [← Bool.and_eq_true, ← allSpace_cons]
        exact hsp
      have hlen : rest.length ≤ n := by
        simp [List.length_cons] at hl
        omega
      by_cases hc : c = '\n'
      · subst hc
        have he : splitLinesCh ('\n' :: rest) = [] :: splitLinesCh rest := rfl
        rw [he] at hx
        rcases List.mem_cons.mp hx with h1 | h1
        · rw [h1]; rfl
        · exact ih rest hlen hcr.2 x h1
      · by_cases hcrn : c = '\r' ∧ rest.head? = some '\n'
        · obtain ⟨hc2, hh⟩ := hcrn
          subst hc2
          rcases rest with _ | ⟨d, rest2⟩
          · simp at hh
          · have hd : d = '\n' := by simpa using hh
            subst hd
            have he : splitLinesCh ('\r' :: '\n' :: rest2) = [] :: splitLinesCh rest2 := rfl
            rw [he] at hx
            rcases List.mem_cons.mp hx with h1 | h1
            · rw [h1]; rfl
            · have hrest2 : allSpace rest2 = true := by
                have h2 := hcr.2
                rw [allSpace_cons, Bool.and_eq_true] at h2
                exact h2.2
              have hlen2 : rest2.length ≤ n := by
                simp [List.length_cons] at hl
                omega
              exact ih rest2 hlen2 hrest2 x h1
        · rw [splitLinesCh_cons_other c rest hc hcrn] at hx
          cases hs : splitLinesCh rest with
          | nil => exact absurd hs (splitLinesCh_ne_nil rest)
          | cons h1 t =>
            rw [hs, consHead_cons] at hx
            rcases List.mem_cons.mp hx with hx1 | hx1
            · rw [hx1, allSpace_cons, Bool.and_eq_true]
              refine ⟨hcr.1, ih rest hlen hcr.2 h1 ?_⟩
              rw [hs]
              exact List.mem_cons_self h1 t
            · apply ih rest hlen hcr.2 x
              rw [hs]
              exact List.mem_cons_of_mem _ hx1

theorem splitLines_allSpace : ∀ (n : Nat) (l : List Char), l.length ≤ n →
    (∀ x ∈ splitLinesCh l, allSpace x = true) → allSpace l = true := by
  intro n
  induction n with
  | zero =>
    intro l hl _
    have hnil : l = [] := List.eq_nil_of_length_eq_zero (Nat.le_zero.mp hl)
    rw [hnil]
    rfl
  | succ n ih =>
    intro l hl hall
    rcases l with _ | ⟨c, rest⟩
    · rfl
    · have hlen : rest.length ≤ n := by
        simp [List.length_cons] at hl
        omega
      by_cases hc : c = '\n'
      · subst hc
        have he : splitLinesCh ('\n' :: rest) = [] :: splitLinesCh rest := rfl
        rw [allSpace_cons, Bool.and_eq_true]
        refine ⟨rfl, ih rest hlen ?_⟩
        intro x hx
        apply hall
        rw [he]
        exact List.mem_cons_of_mem _ hx
      · by_cases hcrn : c = '\r' ∧ rest.head? = some '\n'
        · obtain ⟨hc2, hh⟩ := hcrn
          subst hc2
          rcases rest with _ | ⟨d, rest2⟩
          · simp at hh
          · have hd : d = '\n' := by simpa using hh
            subst hd
            have he : splitLinesCh ('\r' :: '\n' :: rest2) = [] :: splitLinesCh rest2 := rfl
            have hlen2 : rest2.length ≤ n := by
              simp [List.length_cons] at hl
              omega
            rw [allSpace_cons, Bool.and_eq_true]
            refine ⟨rfl, ?_⟩
            rw [allSpace_cons, Bool.and_eq_true]
            refine ⟨rfl, ih rest2 hlen2 ?_⟩
            intro x hx
            apply hall
            rw [he]
            exact List.mem_cons_of_mem _ hx
        · have he := splitLinesCh_cons_other c rest hc hcrn
          cases hs : splitLinesCh rest with
          | nil => exact absurd hs (splitLinesCh_ne_nil rest)
          | cons h1 t =>
            rw [hs, consHead_cons] at he
            have hch1 : allSpace (c :: h1) = true := by
              apply hall
              rw [he]
              exact List.mem_cons_self _ _
            rw [allSpace_cons, Bool.and_eq_true] at hch1
            rw [allSpace_cons, Bool.and_eq_true]
            refine ⟨hch1.1, ih rest hlen ?_⟩
            intro x hx
            rw [hs] at hx
            rcases List.mem_cons.mp hx with hx1 | hx1
            · rw [hx1]
              exact hch1.2
            · apply hall
              rw [he]
              exact List.mem_cons_of_mem _ hx1

/-- Right-trimming the whole text corresponds to `rstripLines` on the
split lines. -/
theorem splitLines_trimRight_aux : ∀ (n : Nat) (l : List Char), l.length ≤ n →
    splitLinesCh (trimRight l) = wrapNil (rstripLines (splitLinesCh l)) := by
  intro n
  induction n with
  | zero =>
    intro l hl
    have hnil : l = [] := List.eq_nil_of_length_eq_zero (Nat.le_zero.mp hl)
    subst hnil
    rfl
  | succ n ih =>
    intro l hl
    rcases l with _ | ⟨c, rest⟩
    · rfl
    have hlen : rest.length ≤ n := by
      simp [List.length_cons] at hl
      omega
    by_cases hc : c = '\n'
    · subst hc
      have hsplit : splitLinesCh ('\n' :: rest) = [] :: splitLinesCh rest := rfl
      rw [hsplit]
      cases hr0 : trimRight rest with
      | nil =>
        have htr : trimRight ('\n' :: rest) = [] := by
          rw [trimRight_cons_eq, hr0]
          rfl
        rw [htr]
        have hsp : allSpace rest = true := (trimRight_eq_nil_iff rest).mp hr0
        have hall := allSpace_splitLines rest.length rest le_rfl hsp
        have h1 : rstripLines (splitLinesCh rest) = [] := (rstripLines_eq_nil_iff _).mpr hall
        rw [rstripLines_cons_eq, h1]
        rfl
      | cons q qs =>
        have htr : trimRight ('\n' :: rest) = '\n' :: q :: qs := by
          rw [trimRight_cons_eq, hr0]
        rw [htr]
        have hsplit2 : splitLinesCh ('\n' :: q :: qs) = [] :: splitLinesCh (q :: qs) := rfl
        rw [hsplit2, ← hr0, ih rest hlen, rstripLines_cons_eq]
        cases hys : rstripLines (splitLinesCh rest) with
        | nil =>
          exfalso
          have hall := (rstripLines_eq_nil_iff _).mp hys
          have hsp : allSpace rest = true := splitLines_allSpace rest.length rest le_rfl hall
          rw [(trimRight_eq_nil_iff rest).mpr hsp] at hr0
          exact List.noConfusion hr0
        | cons y ys => rfl
    · by_cases hcrn : c = '\r' ∧ rest.head? = some '\n'
      · obtain ⟨hc2, hh⟩ := hcrn
        subst hc2
        rcases rest with _ | ⟨d, rest2⟩
        · simp at hh
        have hd : d = '\n' := by simpa using hh
        subst hd
        have hlen2 : rest2.length ≤ n := by
          simp [List.length_cons] at hl
          omega
        have hsplit : splitLinesCh ('\r' :: '\n' :: rest2) = [] :: splitLinesCh rest2 := rfl
        rw [hsplit]
        cases hr0 : trimRight rest2 with
        | nil =>
          have htr : trimRight ('\r' :: '\n' :: rest2) = [] := by
            rw [trimRight_cons_eq, show trimRight ('\n' :: rest2) = [] from by
              rw [trimRight_cons_eq, hr0]; rfl]
            rfl
          rw [htr]
          have hsp : allSpace rest2 = true := (trimRight_eq_nil_iff rest2).mp hr0
          have hall := allSpace_splitLines rest2.length rest2 le_rfl hsp
          have h1 : rstripLines (splitLinesCh rest2) = [] := (rstripLines_eq_nil_iff _).mpr hall
          rw [rstripLines_cons_eq, h1]
          rfl
        | cons q qs =>
          have htr : trimRight ('\r' :: '\n' :: rest2) = '\r' :: '\n' :: q :: qs := by
            rw [trimRight_cons_eq, show trimRight ('\n' :: rest2) = '\n' :: q :: qs from by
              rw [trimRight_cons_eq, hr0]]
          rw [htr]
          have hsplit2 : splitLinesCh ('\r' :: '\n' :: q :: qs) =
            [] :: splitLinesCh (q :: qs) := rfl
          rw [hsplit2, ← hr0, ih rest2 hlen2, rstripLines_cons_eq]
          cases hys : rstripLines (splitLinesCh rest2) with
          | nil =>
            exfalso
            have hall := (rstripLines_eq_nil_iff _).mp hys
            have hsp : allSpace rest2 = true :=
              splitLines_allSpace rest2.length rest2 le_rfl hall
            rw [(trimRight_eq_nil_iff rest2).mpr hsp] at hr0
            exact List.noConfusion hr0
          | cons y ys => rfl
      · rw [splitLinesCh_cons_other c rest hc hcrn]
        cases hs : splitLinesCh rest with
        | nil => exact absurd hs (splitLinesCh_ne_nil rest)
        | cons h1 t =>
          rw [consHead_cons]
          cases hr0 : trimRight rest with
          | nil =>
            have hsp : allSpace rest = true := (trimRight_eq_nil_iff rest).mp hr0
            have hall := allSpace_splitLines rest.length rest le_rfl hsp
            have hth1 : allSpace h1 = true := by
              apply hall
              rw [hs]
              exact List.mem_cons_self _ _
            have htall : ∀ x ∈ t, allSpace x = true := by
              intro x hx
              apply hall
              rw [hs]
              exact List.mem_cons_of_mem _ hx
            have htnil : rstripLines t = [] := (rstripLines_eq_nil_iff _).mpr htall
            by_cases hspc : isJsSpace c = true
            · have htr : trimRight (c :: rest) = [] := by
                rw [trimRight_cons_eq, hr0, if_pos hspc]
              rw [htr, rstripLines_cons_eq, htnil]
              have hca : allSpace (c :: h1) = true := by
                rw [allSpace_cons, Bool.and_eq_true]
                exact ⟨hspc, hth1⟩
              rw [if_pos hca]
              rfl
            · have htr : trimRight (c :: rest) = [c] := by
                rw [trimRight_cons_eq, hr0, if_neg hspc]
              rw [htr, splitLinesCh_cons_other c [] hc (by simp)]
              have hca : ¬ allSpace (c :: h1) = true := by
                rw [allSpace_cons, Bool.and_eq_true]
                intro hx
                exact hspc hx.1
              rw [rstripLines_cons_eq, htnil, if_neg hca]
              have hh1 : trimRight (c :: h1) = [c] := by
                rw [trimRight_cons_eq, (trimRight_eq_nil_iff h1).mpr hth1, if_neg hspc]
              rw [hh1]
              rfl
          | cons q qs =>
            have hrne : ¬ trimRight rest = [] := by
              rw [hr0]
              exact fun hx => List.noConfusion hx
            have htr : trimRight (c :: rest) = c :: q :: qs := by
              rw [trimRight_cons_eq, hr0]
            rw [htr]
            have hcrn2 : ¬ (c = '\r' ∧ (q :: qs).head? = some '\n') := by
              intro hx
              apply hcrn
              refine ⟨hx.1, ?_⟩
              rw [← show (trimRight rest).head? = rest.head? from head?_trimRight rest hrne, hr0]
              exact hx.2
            rw [show splitLinesCh (c :: q :: qs) = consHead c (splitLinesCh (q :: qs)) from
              splitLinesCh_cons_other c (q :: qs) hc hcrn2]
            rw [show (q :: qs) = trimRight rest from hr0.symm, ih rest hlen, hs,
              rstripLines_cons_eq]
            cases hts : rstripLines t with
            | nil =>
              by_cases hth1 : allSpace h1 = true
              · exfalso
                have hall : ∀ x ∈ splitLinesCh rest, allSpace x = true := by
                  intro x hx
                  rw [hs] at hx
                  rcases List.mem_cons.mp hx with h2 | h2
                  · rw [h2]; exact hth1
                  · exact (rstripLines_eq_nil_iff t).mp hts x h2
                have hsp : allSpace rest = true :=
                  splitLines_allSpace rest.length rest le_rfl hall
                rw [(trimRight_eq_nil_iff rest).mpr hsp] at hr0
                exact List.noConfusion hr0
              · rw [if_neg hth1, rstripLines_cons_eq, hts]
                have hca : ¬ allSpace (c :: h1) = true := by
                  rw [allSpace_cons, Bool.and_eq_true]
                  intro hx
                  exact hth1 hx.2
                rw [if_neg hca]
                cases hh1 : trimRight h1 with
                | nil =>
                  exact absurd ((trimRight_eq_nil_iff h1).mp hh1) hth1
                | cons w ws =>
                  have hch1 : trimRight (c :: h1) = c :: w :: ws := by
                    rw [trimRight_cons_eq, hh1]
                  rw [hch1]
                  rfl
            | cons y ys =>
              rw [rstripLines_cons_eq, hts]
              rfl

/-- Membership in `rstripLines`: every surviving piece is an original
piece or the right trim of one. -/
theorem mem_rstripLines (L : List (List Char)) :
    ∀ x ∈ rstripLines L, ∃ y ∈ L, x = y ∨ x = trimRight y := by
  induction L with
  | nil =>
    intro x hx
    exact absurd hx (List.not_mem_nil x)
  | cons a as ih =>
    intro x hx
    rw [rstripLines_cons_eq] at hx
    cases h : rstripLines as with
    | nil =>
      rw [h] at hx
      by_cases ha : allSpace a = true
      · rw [if_pos ha] at hx
        exact absurd hx (List.not_mem_nil x)
      · rw [if_neg ha] at hx
        have hxa : x = trimRight a := by simpa using hx
        exact ⟨a, List.mem_cons_self _ _, Or.inr hxa⟩
    | cons y ys =>
      rw [h] at hx
      rcases List.mem_cons.mp hx with h2 | h2
      · exact ⟨a, List.mem_cons_self _ _, Or.inl h2⟩
      · obtain ⟨z, hz, hzz⟩ := ih x (by rw [h]; exact h2)
        exact ⟨z, List.mem_cons_of_mem _ hz, hzz⟩

/-- Every line of the right-trimmed text is blank or trim-equivalent to
a line of the original text. -/
theorem mem_splitLines_trimRight (l : List Char) :
    ∀ x ∈ splitLinesCh (trimRight l),
      trimChars x = [] ∨ ∃ y ∈ splitLinesCh l, trimChars x = trimChars y := by
  intro x hx
  rw [splitLines_trimRight_aux l.length l le_rfl] at hx
  cases h : rstripLines (splitLinesCh l) with
  | nil =>
    rw [h] at hx
    have hw : wrapNil ([] : List (List Char)) = [[]] := rfl
    rw [hw] at hx
    have hxnil : x = [] := by simpa using hx
    left
    rw [hxnil]
    rfl
  | cons y ys =>
    rw [h] at hx
    have hw : wrapNil (y :: ys) = y :: ys := rfl
    rw [hw] at hx
    have hx2 : x ∈ rstripLines (splitLinesCh l) := by
      rw [h]
      exact hx
    obtain ⟨z, hz, hzz⟩ := mem_rstripLines _ x hx2
    right
    rcases hzz with h2 | h2
    · exact ⟨z, hz, by rw [h2]⟩
    · exact ⟨z, hz, by rw [h2, trimChars_trimRight]⟩

/-- Every line of the left-trimmed text is blank or trim-equivalent to
a line of the original text. -/
theorem mem_splitLines_dropWhile_aux : ∀ (n : Nat) (l : List Char), l.length ≤ n →
    ∀ x ∈ splitLinesCh (l.dropWhile isJsSpace),
      trimChars x = [] ∨ ∃ y ∈ splitLinesCh l, trimChars x = trimChars y := by
  intro n
  induction n with
  | zero =>
    intro l hl x hx
    have hnil : l = [] := List.eq_nil_of_length_eq_zero (Nat.le_zero.mp hl)
    subst hnil
    exact Or.inr ⟨x, hx, rfl⟩
  | succ n ih =>
    intro l hl x hx
    rcases l with _ | ⟨c, rest⟩
    · exact Or.inr ⟨x, hx, rfl⟩
    have hlen : rest.length ≤ n := by
      simp [List.length_cons] at hl
      omega
    by_cases hspc : isJsSpace c = true
    · rw [List.dropWhile_cons_of_pos hspc] at hx
      by_cases hc : c = '\n'
      · subst hc
        rcases ih rest hlen x hx with h1 | ⟨y, hy, hxy⟩
        · exact Or.inl h1
        · exact Or.inr ⟨y, List.mem_cons_of_mem _ hy, hxy⟩
      · by_cases hcrn : c = '\r' ∧ rest.head? = some '\n'
        · obtain ⟨hc2, hh⟩ := hcrn
          subst hc2
          rcases rest with _ | ⟨d, rest2⟩
          · simp at hh
          have hd : d = '\n' := by simpa using hh
          subst hd
          have hlen2 : rest2.length ≤ n := by
            simp [List.length_cons] at hl
            omega
          rw [List.dropWhile_cons_of_pos (show isJsSpace '\n' = true from rfl)] at hx
          rcases ih rest2 hlen2 x hx with h1 | ⟨y, hy, hxy⟩
          · exact Or.inl h1
          · exact Or.inr ⟨y, List.mem_cons_of_mem _ hy, hxy⟩
        · rw [splitLinesCh_cons_other c rest hc hcrn]
          cases hs : splitLinesCh rest with
          | nil => exact absurd hs (splitLinesCh_ne_nil rest)
          | cons h1 t =>
            rw [consHead_cons]
            rcases ih rest hlen x hx with hb | ⟨y, hy, hxy⟩
            · exact Or.inl hb
            · rw [hs] at hy
              rcases List.mem_cons.mp hy with h2 | h2
              · refine Or.inr ⟨c :: h1, List.mem_cons_self _ _, ?_⟩
                rw [hxy, h2, trimChars_cons_space c h1 hspc]
              · exact Or.inr ⟨y, List.mem_cons_of_mem _ h2, hxy⟩
    · rw [List.dropWhile_cons_of_neg hspc] at hx
      exact Or.inr ⟨x, hx, rfl⟩

/-- Every line of the fully trimmed text is blank or trim-equivalent to
a line of the original text. -/
theorem mem_splitLines_trimChars (l : List Char) :
    ∀ x ∈ splitLinesCh (trimChars l),
      trimChars x = [] ∨ ∃ y ∈ splitLinesCh l, trimChars x = trimChars y := by
  intro x hx
  have hx2 : x ∈ splitLinesCh ((trimRight l).dropWhile isJsSpace) := hx
  rcases mem_splitLines_dropWhile_aux (trimRight l).length (trimRight l) le_rfl x hx2 with
    h1 | ⟨y, hy, hxy⟩
  · exact Or.inl h1
  · rcases mem_splitLines_trimRight l y hy with h2 | ⟨z, hz, hyz⟩
    · exact Or.inl (hxy.trans h2)
    · exact Or.inr ⟨z, hz, hxy.trans hyz⟩

/-- `lineAct` only depends on the trimmed line. -/
theorem lineAct_eq_of_trim (a b : List Char) (h : trimChars a = trimChars b) :
    lineAct a = lineAct b := by
  unfold lineAct
  rw [h]

/-- A blank line contributes nothing. -/
theorem lineAct_of_blank (a : List Char) (h : trimChars a = []) :
    lineAct a = ([], []) := by
  unfold lineAct
  rw [h]

/-- The accumulating fold yields the empty pair exactly when every
element is the empty pair. -/
theorem foldr_pairs_nil_iff (L : List (List String × List String)) :
    L.foldr (fun p acc => (p.1 ++ acc.1, p.2 ++ acc.2)) ([], []) = ([], []) ↔
      ∀ p ∈ L, p = ([], []) := by
  induction L with
  | nil => simp
  | cons a as ih =>
    rw [List.foldr_cons, List.forall_mem_cons, ← ih]
    obtain ⟨a1, a2⟩ := a
    cases hF : List.foldr (fun p acc => (p.1 ++ acc.1, p.2 ++ acc.2)) ([], []) as with
    | mk F1 F2 =>
      simp [Prod.mk.injEq, List.append_eq_nil]
      tauto

/-- The normalizer recognizes nothing exactly when every line of the
input contributes nothing. -/
theorem collectParts_eq_nil_iff (raw : List Char) :
    collectParts raw = ([], []) ↔
      ∀ line ∈ splitLinesCh raw, lineAct line = ([], []) := by
  unfold collectParts
  rw [foldr_pairs_nil_iff]
  constructor
  · intro h line hline
    exact h (lineAct line) (List.mem_map_of_mem _ hline)
  · intro h p hp
    obtain ⟨line, hline, rfl⟩ := List.mem_map.mp hp
    exact h line hline

/-- Trimming the whole text preserves the recognizes-nothing condition. -/
theorem collectParts_trimChars_nil (l : List Char)
    (h : collectParts l = ([], [])) : collectParts (trimChars l) = ([], []) := by
  rw [collectParts_eq_nil_iff] at h ⊢
  intro line hline
  rcases mem_splitLines_trimChars l line hline with h1 | ⟨y, hy, hxy⟩
  · exact lineAct_of_blank line h1
  · rw [lineAct_eq_of_trim line y hxy]
    exact h y hy

/-- C8 (amended): when the output normalizer recognizes no structured
JSON record in the input, it returns the trimmed raw text (the
`raw.trim()` fallback), and it is idempotent on such plain text. -/
theorem normalizer_fallback_trim_idempotent (raw : String)
    (h : collectParts raw.data = ([], [])) :
    prettyStreamJson raw = jsTrim raw ∧
      prettyStreamJson (prettyStreamJson raw) = prettyStreamJson raw := by
  have h1 : prettyStreamJson raw = jsTrim raw := by
    unfold prettyStreamJson
    rw [h]
    rfl
  refine ⟨h1, ?_⟩
  rw [h1]
  have h2 : collectParts (jsTrim raw).data = ([], []) := by
    have hd : (jsTrim raw).data = trimChars raw.data := rfl
    rw [hd]
    exact collectParts_trimChars_nil raw.data h
  have h3 : prettyStreamJson (jsTrim raw) = jsTrim (jsTrim raw) := by
    unfold prettyStreamJson
    rw [h2]
    rfl
  rw [h3]
  show (⟨trimChars (trimChars raw.data)⟩ : String) = ⟨trimChars raw.data⟩
  rw [trimChars_idem]

/-- C8: on the plain-text input `" hello"` the normalizer recognizes no
structured record, yet it returns `"hello"`: the raw text trimmed, not
character-for-character verbatim. -/
theorem fallback_not_verbatim :
    collectParts (" hello" : String).data = ([], []) ∧
      prettyStreamJson " hello" = "hello" ∧
      ¬ prettyStreamJson " hello" = " hello" := by
  refine ⟨by decide, by decide, by decide⟩

set_option maxRecDepth 8000 in
/-- C8 witness: the fallback/idempotence theorem at a concrete
plain-text input. -/
theorem normalizer_fallback_trim_idempotent_witness :
    prettyStreamJson " hello \nworld " = jsTrim " hello \nworld " ∧
      prettyStreamJson (prettyStreamJson " hello \nworld ") =
        prettyStreamJson " hello \nworld " :=
  normalizer_fallback_trim_idempotent " hello \nworld " (by decide)

end ClawKanban
